import Mathlib

/-!
Verification development for the `todolist` repository.

The repository contains two sync-agent scripts
(`scripts/openclaw-todo-sync.js`, `scripts/openclaw-sync-simple.js`)
and several serverless API handler variants (`api/todos.js`,
`api/index.js`, and a gist-backed variant).  Below, each JavaScript
function relevant to the verified properties is translated into a Lean
definition over `Str := List Char` (a JS string as its character
sequence).  JS `Map` / `Set` objects that only ever store a sentinel
value are modelled as insertion-ordered `List String` of their keys;
JS `undefined` / missing fields are modelled as `Option`.
-/

/-- A JS string, modelled as its list of characters. -/
abbrev Str := List Char

/-- Shorthand: character list of a string literal. -/
def w (s : String) : Str := s.toList

/-- The apostrophe character (U+0027), used inside pattern literals. -/
def apos : Char := Char.ofNat 39

/-- JS regex `\s` character class (the whitespace characters relevant to
the repository plus the full ECMA set of common members). -/
def wsChar (c : Char) : Bool :=
  c = ' ' || c = '\t' || c = '\n' || c = '\r' ||
  c = Char.ofNat 11 || c = Char.ofNat 12 ||
  c = Char.ofNat 0xa0 || c = Char.ofNat 0x1680 ||
  (0x2000 ≤ c.toNat && c.toNat ≤ 0x200a) ||
  c = Char.ofNat 0x2028 || c = Char.ofNat 0x2029 ||
  c = Char.ofNat 0x202f || c = Char.ofNat 0x205f ||
  c = Char.ofNat 0x3000 || c = Char.ofNat 0xfeff

/-- JS regex `.` (without the `s` flag): any character except a line
terminator. -/
def dotChar (c : Char) : Bool :=
  !(c = '\n' || c = '\r' || c = Char.ofNat 0x2028 || c = Char.ofNat 0x2029)

/-- The character class `[.!?]` used by the task-text clean-up
`task.replace(/[.!?]+$/, '')`. -/
def punctChar (c : Char) : Bool := c = '.' || c = '!' || c = '?'

/-- JS `String.prototype.trim`: strip leading and trailing whitespace. -/
def trimJs (t : Str) : Str :=
  ((t.dropWhile wsChar).reverse.dropWhile wsChar).reverse

/-- `task.replace(/[.!?]+$/, '')`: strip the maximal trailing run of
sentence punctuation. -/
def stripTrailingPunct (t : Str) : Str :=
  (t.reverse.dropWhile punctChar).reverse

/-- Case-insensitive character comparison, as used by the `i` regex
flag on the repository patterns (all ASCII). -/
def ciEq (a b : Char) : Bool := a.toLower = b.toLower

/-- Match a literal regex fragment case-insensitively at the start of
`s`; return the remaining text on success. -/
def stripLiteralCI : Str → Str → Option Str
  | [], s => some s
  | _ :: _, [] => none
  | l :: ls, c :: cs => if ciEq l c then stripLiteralCI ls cs else none

/-- Match `\s+` at the start of `s` (maximal munch; the repository
patterns always follow `\s+` with a non-whitespace literal, so the
maximal run is the unique possible match). -/
def stripWs1 (s : Str) : Option Str :=
  match s with
  | [] => none
  | c :: rest => if wsChar c then some (rest.dropWhile wsChar) else none

/-- Greedy `(.+)` once its start is fixed: the maximal run of
non-line-terminator characters (nothing follows it in any pattern). -/
def dotRun (s : Str) : Str := s.takeWhile dotChar

/-- Match `p*(.+)` at the start of `s` with the backtracking order of a
JS regex engine (longest `p*` first), returning the text captured by
`(.+)`. -/
def pstarDot (p : Char → Bool) : Str → Option Str
  | [] => none
  | c :: rest =>
    if p c then
      match pstarDot p rest with
      | some cap => some cap
      | none => if dotChar c then some (c :: dotRun rest) else none
    else if dotChar c then some (c :: dotRun rest) else none

/-- Match `p*(.+)` like `pstarDot`, but return the whole matched text
(`p*` part included); used where the capture group encloses the
quantified tail (numbered-list pattern). -/
def pstarDotAll (p : Char → Bool) : Str → Option Str
  | [] => none
  | c :: rest =>
    if p c then
      match pstarDotAll p rest with
      | some cap => some (c :: cap)
      | none => if dotChar c then some (c :: dotRun rest) else none
    else if dotChar c then some (c :: dotRun rest) else none

/-- Match `p+(.+)` at the start of `s` (e.g. `\s+(.+)` and
`[:\s]+(.+)`), returning the `(.+)` capture. -/
def classTail (p : Char → Bool) (s : Str) : Option Str :=
  match s with
  | [] => none
  | c :: rest => if p c then pstarDot p rest else none

/-- First success of `f` over a list, in order: the alternation
semantics of a JS regex at a fixed start position. -/
def firstSome : List α → (α → Option β) → Option β
  | [], _ => none
  | a :: as, f => (f a) <|> firstSome as f

/-- Match a sequence of literal words joined by `\s+`
(case-insensitively) at the start of `s`; return the remaining text.
Every word starts with a non-whitespace character, so each `\s+` is
forced to its maximal run. -/
def matchChunksCI : List Str → Str → Option Str
  | [], s => some s
  | [c], s => stripLiteralCI c s
  | c :: c2 :: cs, s =>
    (stripLiteralCI c s).bind fun r =>
      (stripWs1 r).bind fun r2 => matchChunksCI (c2 :: cs) r2

/-- Greedy optional group `(?:word\s+)?` in continuation style: try the
branch that consumes the word first, fall back to skipping it. -/
def optChunkCI (word : Str) (k : Str → Option Str) (s : Str) : Option Str :=
  ((stripLiteralCI word s).bind fun r => (stripWs1 r).bind k) <|> k s

/-- Does `pat` occur as a contiguous substring of `t`?  (JS
`regex.test(text)` for a regex that is an alternation of literals.) -/
def strOccurs (pat t : Str) : Bool := decide (pat <:+: t)

/-- `words.some(w => text.includes(w))`: an alternation-of-literals
regex tests true iff some alternative occurs in the text. -/
def anyOccurs (pats : List Str) (t : Str) : Bool :=
  pats.any (fun p => strOccurs p t)

/-- Priority levels returned by `detectPriority`. -/
inductive Priority where
  | low
  | medium
  | high
deriving DecidableEq, Repr

/-!
## Pattern Extractor (`extractTask`)

Both scripts share the first three recognizer patterns verbatim; the
remote-session script adds a fourth (numbered list items).
-/

/-- The verb alternation of pattern 1: `(?:create|add|make)`. -/
def pat1Verbs : List Str := [w "create", w "add", w "make"]

/-- `[:\s]` character class of pattern 1 (`list[:\s]+(.+)`). -/
def colonWs (c : Char) : Bool := c = ':' || wsChar c

/-- Try pattern 1,
`/(?:create|add|make)\s+(?:a\s+)?(?:new\s+)?task\s+(?:to\s+)?(?:my\s+)?(?:todo\s+)?list[:\s]+(.+)/i`,
at a fixed start position. -/
def tryPat1At (s : Str) : Option Str :=
  firstSome pat1Verbs (fun v =>
    (stripLiteralCI v s).bind fun r =>
      (stripWs1 r).bind fun r1 =>
        optChunkCI (w "a")
          (optChunkCI (w "new") (fun r2 =>
            (stripLiteralCI (w "task") r2).bind fun r3 =>
              (stripWs1 r3).bind fun r4 =>
                optChunkCI (w "to")
                  (optChunkCI (w "my")
                    (optChunkCI (w "todo") (fun r5 =>
                      (stripLiteralCI (w "list") r5).bind fun r6 =>
                        classTail colonWs r6))) r4)) r1)

/-- Leftmost-match scan for pattern 1 (JS `text.match`). -/
def findPat1 : Str → Option Str
  | [] => none
  | c :: rest => tryPat1At (c :: rest) <|> findPat1 rest

/-- The marker alternation of pattern 2, expanded into word-chunk
sequences in the backtracking order of
`(?:remember\s+to|don't\s+forget\s+to|i(?:'ve| have)\s+to|i(?:'m| am)\s+going\s+to|i\s+need\s+to|i\s+should|i\s+must)`. -/
def pat2Alts : List (List Str) :=
  [ [w "remember", w "to"],
    [w "don" ++ apos :: w "t", w "forget", w "to"],
    [w "i" ++ apos :: w "ve", w "to"],
    [w "i have", w "to"],
    [w "i" ++ apos :: w "m", w "going", w "to"],
    [w "i am", w "going", w "to"],
    [w "i", w "need", w "to"],
    [w "i", w "should"],
    [w "i", w "must"] ]

/-- Try pattern 2 (`marker\s+(.+)`, flag `i`) at a fixed start
position. -/
def tryPat2At (s : Str) : Option Str :=
  firstSome pat2Alts (fun alt => (matchChunksCI alt s).bind (classTail wsChar))

/-- Leftmost-match scan for pattern 2. -/
def findPat2 : Str → Option Str
  | [] => none
  | c :: rest => tryPat2At (c :: rest) <|> findPat2 rest

/-- The label alternation of pattern 3: `(?:todo|to-do|task)`. -/
def pat3Words : List Str := [w "todo", w "to-do", w "task"]

/-- Try pattern 3 (`/(?:todo|to-do|task):\s*(.+)/i`) at a fixed start
position. -/
def tryPat3At (s : Str) : Option Str :=
  firstSome pat3Words (fun wd =>
    (stripLiteralCI wd s).bind fun r =>
      match r with
      | ':' :: r2 => pstarDot wsChar r2
      | _ => none)

/-- Leftmost-match scan for pattern 3. -/
def findPat3 : Str → Option Str
  | [] => none
  | c :: rest => tryPat3At (c :: rest) <|> findPat3 rest

/-- Match `\d+\.\s+.+` at the start of `s` (the capture group of the
numbered-list pattern), returning the whole matched text.  The digit
run and each whitespace run are forced maximal by the following
literal. -/
def tryPat4Num (s : Str) : Option Str :=
  let ds := s.takeWhile Char.isDigit
  if ds.isEmpty then none
  else
    match s.drop ds.length with
    | '.' :: r2 =>
      (match r2 with
       | [] => none
       | c :: rest =>
         if wsChar c then (pstarDotAll wsChar rest).map (fun tl => c :: tl)
         else none).map (fun tl => ds ++ '.' :: tl)
    | _ => none

/-- Scan for the `\.\s*` alternative of pattern 4ʼs prefix
`(?:^|\.\s*)` at every position. -/
def findPat4Sub : Str → Option Str
  | [] => none
  | c :: rest =>
    (if c = '.' then tryPat4Num (rest.dropWhile wsChar) else none)
      <|> findPat4Sub rest

/-- Pattern 4, `/(?:^|\.\s*)(\d+\.\s+.+)/` (remote-session script
only): anchor alternative at position 0 first, then the `\.\s*`
alternative at each position. -/
def findPat4 (s : Str) : Option Str := tryPat4Num s <|> findPat4Sub s

/-- The clean-up applied to a raw capture `match[1]`:
`task = match[1].trim(); task = task.replace(/[.!?]+$/, '');` followed
by the length gate `task.length > 5 && task.length < 200`.  Returns
`none` when the gate rejects, in which case the pattern loop falls
through to the next pattern. -/
def cleanCheck (cap : Str) : Option Str :=
  let task := stripTrailingPunct (trimJs cap)
  if 5 < task.length ∧ task.length < 200 then some task else none

/-- The `for (const pattern of patterns)` loop shared by both
`extractTask` variants. -/
def runPatterns : List (Str → Option Str) → Str → Option Str
  | [], _ => none
  | p :: ps, t =>
    match p t with
    | some m =>
      match cleanCheck m with
      | some task => some task
      | none => runPatterns ps t
    | none => runPatterns ps t

namespace SyncScript

/-- `extractTask` of `scripts/openclaw-todo-sync.js` (four patterns). -/
def extractTask (text : Str) : Option Str :=
  runPatterns [findPat1, findPat2, findPat3, findPat4] text

/-- The literal alternatives of the first high-priority regex
`/urgent|asap|immediately|right now|important|critical|emergency/`
(case-sensitive: no `i` flag in this script). -/
def urgencyWords : List Str :=
  [w "urgent", w "asap", w "immediately", w "right now", w "important",
   w "critical", w "emergency"]

/-- The deferral regex alternatives
`/when you have time|eventually|sometime|maybe|later/`. -/
def deferralWords : List Str :=
  [w "when you have time", w "eventually", w "sometime", w "maybe", w "later"]

/-- The `highPriorityPatterns` array of `openclaw-todo-sync.js`:
the urgency-word alternation, `/!+/` (true iff the text contains a
bang), and `/^/` — which matches the empty string at position 0 of
every input and therefore tests true on every string. -/
def highPriorityPatterns : List (Str → Bool) :=
  [ fun t => anyOccurs urgencyWords t,
    fun t => t.contains '!',
    fun _ => true ]

/-- The `lowPriorityPatterns` array. -/
def lowPriorityPatterns : List (Str → Bool) :=
  [ fun t => anyOccurs deferralWords t ]

/-- `detectPriority` of `scripts/openclaw-todo-sync.js`. -/
def detectPriority (t : Str) : Priority :=
  if highPriorityPatterns.any (fun p => p t) then .high
  else if lowPriorityPatterns.any (fun p => p t) then .low
  else .medium

end SyncScript

namespace SimpleScript

/-- `extractTask` of `scripts/openclaw-sync-simple.js` (three
patterns: no numbered-list pattern). -/
def extractTask (text : Str) : Option Str :=
  runPatterns [findPat1, findPat2, findPat3] text

/-- Alternatives of `/urgent|asap|immediately|important|critical|!/i`. -/
def urgencyWords : List Str :=
  [w "urgent", w "asap", w "immediately", w "important", w "critical", w "!"]

/-- Alternatives of `/when you have time|eventually|sometime|maybe|later/i`. -/
def deferralWords : List Str :=
  [w "when you have time", w "eventually", w "sometime", w "maybe", w "later"]

/-- `detectPriority` of `scripts/openclaw-sync-simple.js`.  Both
regexes carry the `i` flag, modelled by lower-casing the text (the
alternatives are already lower-case). -/
def detectPriority (t : Str) : Priority :=
  let l := t.map Char.toLower
  if anyOccurs urgencyWords l then .high
  else if anyOccurs deferralWords l then .low
  else .medium

end SimpleScript

/-!
## Sync-agent state machine

`lastKnownMessages` (remote-session script) and `processedFiles`
(local-file script) are a JS `Map` / `Set` whose stored value is only
the sentinel `true`; both are modelled as the insertion-ordered list of
their keys.  `addTodo` posts to the API, catches every error, and
returns a boolean that the callers discard; its outcome is modelled by
an oracle `ok : String → Bool` threaded through (and, faithfully to
the scripts, ignored).  Dispatch calls are recorded in a log so their
number can be observed.
-/

/-- One dispatched `addTodo(task, priority, metadata)` call, keyed by
the metadata message id. -/
structure DispatchRec where
  text : Str
  priority : Priority
  messageId : String
deriving DecidableEq, Repr

/-- The mutable state of either script: the dedup structure plus the
log of dispatch calls made so far. -/
structure SyncState where
  cache : List String
  dispatches : List DispatchRec
deriving DecidableEq, Repr

/-- The empty state both scripts start from. -/
def initState : SyncState := ⟨[], []⟩

/-- Dispatch count for one message identifier. -/
def countDisp (st : SyncState) (mid : String) : Nat :=
  (st.dispatches.filter (fun d => d.messageId = mid)).length

/-- A message of a remote session history (`messageId` may be absent). -/
structure Message where
  messageId : Option String
  content : Str
deriving DecidableEq, Repr

namespace SyncScript

/-- JS truthiness of a possibly-missing string (only `undefined` and
the empty string are falsy here). -/
def truthy : Option String → Bool
  | none => false
  | some s => s ≠ ""

/-- The body of the `for (const message of history.messages.slice(-5))`
loop of `processSession`: evaluate one message, dispatching when a task
is extracted, and in that case mark the id seen immediately afterwards
(the `addTodo` result is awaited and discarded). -/
def stepMessage (ok : String → Bool) (st : SyncState) (m : Message) : SyncState :=
  match m.messageId with
  | some mid =>
    if mid ≠ "" ∧ mid ∉ st.cache then
      let afterDispatch :=
        match extractTask m.content with
        | some task =>
          let _succeeded := ok mid
          { st with dispatches := st.dispatches ++ [(⟨task, detectPriority task, mid⟩ : DispatchRec)] }
        | none => st
      { afterDispatch with cache := afterDispatch.cache ++ [mid] }
    else st
  | none => st

/-- `CONFIG.maxHistoryItems * 10`, the cache-size threshold. -/
def cacheCap : Nat := 50 * 10

/-- The `// Keep memory clean` block: when the map holds more than
`cacheCap` entries, delete the first 100 keys in insertion order. -/
def evict (st : SyncState) : SyncState :=
  if cacheCap < st.cache.length then { st with cache := st.cache.drop 100 }
  else st

/-- The early-exit test
`lastKnownMessages.get(sessionKey) === lastMessage.messageId`.
The map only ever receives message ids as keys (with value `true`), so
`get(sessionKey)` is the boolean `true` when some stored message id
equals the session key — and `true === id` is false for a string or
undefined id — and `undefined` otherwise, in which case the strict
equality holds exactly when the last message id is itself undefined. -/
def unchangedCheck (cache : List String) (sessionKey : String)
    (lastId : Option String) : Bool :=
  if sessionKey ∈ cache then false
  else lastId.isNone

/-- `processSession` of `openclaw-todo-sync.js`, given the fetched
`history.messages`.  An empty history makes
`history.messages[length - 1]` undefined and the subsequent property
access throw, which the enclosing `try` turns into a no-op. -/
def processSession (ok : String → Bool) (sessionKey : String)
    (msgs : List Message) (st : SyncState) : SyncState :=
  match msgs.getLast? with
  | none => st
  | some lastMessage =>
    if unchangedCheck st.cache sessionKey lastMessage.messageId then st
    else evict ((msgs.drop (msgs.length - 5)).foldl (stepMessage ok) st)

/-- Several polls of the remote-session strategy: each batch is a
session key with its fetched message history. -/
def runSessions (ok : String → Bool) (batches : List (String × List Message))
    (st : SyncState) : SyncState :=
  batches.foldl (fun s b => processSession ok b.1 b.2 s) st

end SyncScript

namespace SimpleScript

/-- One successfully parsed JSONL line of a transcript file; each field
may be absent. -/
structure LineRecord where
  message : Option Str
  content : Option Str
  messageId : Option String
  id : Option String
deriving DecidableEq, Repr

/-- `const message = data.message || data.content || ''`. -/
def lineText (d : LineRecord) : Str :=
  match d.message with
  | some s => if s = [] then d.content.getD [] else s
  | none => d.content.getD []

/-- `const messageId = data.messageId || data.id`. -/
def lineId (d : LineRecord) : Option String :=
  match d.messageId with
  | some s => if s = "" then d.id else some s
  | none => d.id

/-- The body of the per-line loop of `processTranscript`; `none` is a
line on which `JSON.parse` threw (skipped by the inner `catch`). -/
def stepLine (ok : String → Bool) (st : SyncState) (line : Option LineRecord) :
    SyncState :=
  match line with
  | none => st
  | some d =>
    match lineId d with
    | some mid =>
      if mid ≠ "" ∧ mid ∉ st.cache then
        let afterDispatch :=
          match extractTask (lineText d) with
          | some task =>
            let _succeeded := ok mid
            { st with dispatches :=
                st.dispatches ++ [(⟨task, detectPriority (lineText d), mid⟩ : DispatchRec)] }
          | none => st
        { afterDispatch with cache := afterDispatch.cache ++ [mid] }
      else st
    | none => st

/-- `processTranscript` of `openclaw-sync-simple.js`: `fileRead = none`
models `fs.readFileSync` throwing (file unreachable), handled by the
outer `catch`; otherwise the lines are processed in order. -/
def processTranscript (ok : String → Bool) (filePath : String)
    (fileRead : Option (List (Option LineRecord))) (st : SyncState) : SyncState :=
  if filePath ∈ st.cache then st
  else
    match fileRead with
    | none => st
    | some lines => lines.foldl (stepLine ok) st

/-- `file.endsWith('.jsonl')`, expressed as a suffix test on the
character sequence. -/
def endsWithJsonl (nm : String) : Bool := decide ((w ".jsonl") <:+ nm.toList)

/-- A directory entry seen by `scanSessions`: the file name, the joined
path, and the read outcome. -/
structure FileEntry where
  name : String
  path : String
  read : Option (List (Option LineRecord))

/-- `scanSessions`: `none` models a missing/unreadable sessions
directory (the `existsSync` guard or the outer `catch`); otherwise
each `.jsonl` file is processed in order. -/
def scanSessions (ok : String → Bool) (dir : Option (List FileEntry))
    (st : SyncState) : SyncState :=
  match dir with
  | none => st
  | some files =>
    files.foldl
      (fun s f =>
        if endsWithJsonl f.name then processTranscript ok f.path f.read s
        else s) st

/-- Several polls of the local-file strategy. -/
def runScans (ok : String → Bool) (polls : List (Option (List FileEntry)))
    (st : SyncState) : SyncState :=
  polls.foldl (fun s p => scanSessions ok p s) st

end SimpleScript

/-!
## API `POST /todos` handler variants

Each handler parses the request body (a failed `request.json()` is
`none`), validates `!body.text || body.text.trim() === ''`, and on
success creates a todo and prepends it (`todos.unshift(todo)`).  The id
`Date.now().toString(36) + Math.random().toString(36).substr(2)` and
`createdAt = Date.now()` are modelled as parameters `freshId` / `now`.
The `metadata` field (an opaque JSON object copied through) is not
modelled.  The stored list is the value obtained from the variantʼs
storage layer and the returned list is the value it saves back.
-/

/-- A stored todo record.  `tag` and `dueDate` exist only in the
gist-backed variant; the other handlers never set them and they are
`none` there. -/
structure Todo where
  id : String
  text : Str
  priority : String
  completed : Bool
  createdAt : Nat
  source : String
  tag : Option String
  dueDate : Option String
deriving DecidableEq, Repr

/-- The fields of a `POST /todos` request body that the handlers read. -/
structure PostBody where
  text : Option Str
  priority : Option String
  source : Option String
  tag : Option String
  dueDate : Option String
deriving DecidableEq, Repr

/-- The observable part of a handler response: HTTP status, the
`success` flag, and the `data` payload when it is a todo. -/
structure ApiResp where
  status : Nat
  success : Bool
  data : Option Todo
deriving DecidableEq, Repr

/-- JS `a || 'default'` on a possibly-absent string. -/
def jsOrStr (a : Option String) (d : String) : String :=
  match a with
  | some s => if s = "" then d else s
  | none => d

/-- JS `a || null` on a possibly-absent string. -/
def jsOrNull (a : Option String) : Option String :=
  match a with
  | some s => if s = "" then none else some s
  | none => none

namespace ApiTodosJs

/-- `POST` of `api/todos.js`.  Destructuring defaults
`priority = 'medium'`, `source = 'manual'` apply only to absent
fields. -/
def POST (freshId : String) (now : Nat) (todos : List Todo)
    (body : Option PostBody) : List Todo × ApiResp :=
  match body with
  | none => (todos, ⟨400, false, none⟩)
  | some b =>
    match b.text with
    | none => (todos, ⟨400, false, none⟩)
    | some t =>
      if t = [] ∨ trimJs t = [] then (todos, ⟨400, false, none⟩)
      else
        let todo : Todo :=
          { id := freshId, text := trimJs t,
            priority := b.priority.getD "medium",
            completed := false, createdAt := now,
            source := b.source.getD "manual",
            tag := none, dueDate := none }
        (todo :: todos, ⟨201, true, some todo⟩)

end ApiTodosJs

namespace ApiIndexJs

/-- `POST` of `api/index.js` (Upstash-backed variant): a path check
precedes parsing, and `body.priority || 'medium'`,
`body.source || 'manual'` use JS truthiness. -/
def POST (freshId : String) (now : Nat) (path : String) (todos : List Todo)
    (body : Option PostBody) : List Todo × ApiResp :=
  if path ≠ "/todos" ∧ path ≠ "/" then (todos, ⟨404, false, none⟩)
  else
    match body with
    | none => (todos, ⟨400, false, none⟩)
    | some b =>
      match b.text with
      | none => (todos, ⟨400, false, none⟩)
      | some t =>
        if t = [] ∨ trimJs t = [] then (todos, ⟨400, false, none⟩)
        else
          let todo : Todo :=
            { id := freshId, text := trimJs t,
              priority := jsOrStr b.priority "medium",
              completed := false, createdAt := now,
              source := jsOrStr b.source "manual",
              tag := none, dueDate := none }
          (todo :: todos, ⟨201, true, some todo⟩)

end ApiIndexJs

namespace ApiGistJs

/-- `POST` of the gist-backed handler variant: as `api/index.js` plus
`tag: body.tag || 'user'` and `dueDate: body.dueDate || null`. -/
def POST (freshId : String) (now : Nat) (path : String) (todos : List Todo)
    (body : Option PostBody) : List Todo × ApiResp :=
  if path ≠ "/todos" ∧ path ≠ "/" then (todos, ⟨404, false, none⟩)
  else
    match body with
    | none => (todos, ⟨400, false, none⟩)
    | some b =>
      match b.text with
      | none => (todos, ⟨400, false, none⟩)
      | some t =>
        if t = [] ∨ trimJs t = [] then (todos, ⟨400, false, none⟩)
        else
          let todo : Todo :=
            { id := freshId, text := trimJs t,
              priority := jsOrStr b.priority "medium",
              completed := false, createdAt := now,
              source := jsOrStr b.source "manual",
              tag := some (jsOrStr b.tag "user"),
              dueDate := jsOrNull b.dueDate }
          (todo :: todos, ⟨201, true, some todo⟩)

end ApiGistJs

/-!
## Invariants and concrete runs used to settle the dedup/eviction claims
-/

/-- The per-identifier dedup invariant: at most one dispatch so far,
and none at all while the identifier has never been cached. -/
def DispInv (st : SyncState) (m : String) : Prop :=
  countDisp st m ≤ 1 ∧ (m ∉ st.cache → countDisp st m = 0)

namespace SyncScript

/-- `noEvictRun ok batches st = true` states that along the given run
the cache never exceeds `cacheCap` at the eviction check, i.e. the
`// Keep memory clean` block never fires. -/
def noEvictRun (ok : String → Bool) : List (String × List Message) → SyncState → Bool
  | [], _ => true
  | b :: bs, st =>
    (match b.2.getLast? with
     | none => true
     | some lastMessage =>
       if unchangedCheck st.cache b.1 lastMessage.messageId then true
       else decide
         (((b.2.drop (b.2.length - 5)).foldl (stepMessage ok) st).cache.length
           ≤ cacheCap))
    && noEvictRun ok bs (processSession ok b.1 b.2 st)

end SyncScript

/-- The session key used by the concrete runs below. -/
def sessKey : String := "agent:main:main"

/-- Distinct non-empty message identifiers for flood messages. -/
def fid (n : Nat) : String := String.mk (List.replicate (n + 1) 'f')

/-- `fids s c = [fid s, fid (s+1), …, fid (s+c-1)]`. -/
def fids : Nat → Nat → List String
  | _, 0 => []
  | s, c + 1 => fid s :: fids (s + 1) c

/-- A message carrying an actionable phrase, used twice in the
eviction run. -/
def mMsg : Message := ⟨some "m1", w "remember to buy milk"⟩

/-- A filler message whose content yields no task. -/
def fMsg (n : Nat) : Message := ⟨some (fid n), w "x"⟩

/-- One five-message poll batch of filler messages. -/
def floodBatch (k : Nat) : List Message :=
  [fMsg (5 * k), fMsg (5 * k + 1), fMsg (5 * k + 2),
   fMsg (5 * k + 3), fMsg (5 * k + 4)]

/-- `floodBatches k c`: poll batches `k, k+1, …, k+c-1`. -/
def floodBatches : Nat → Nat → List (String × List Message)
  | _, 0 => []
  | k, c + 1 => (sessKey, floodBatch k) :: floodBatches (k + 1) c

/-- The concrete remote-session run that evicts `"m1"` between its two
feeds: feed `m1`, then 100 five-message batches of fresh filler ids
(501 cache entries, so the eviction block drops the oldest 100,
`"m1"` among them), then feed `m1` again. -/
def evictionRun : List (String × List Message) :=
  (sessKey, [mMsg]) :: (floodBatches 0 100 ++ [(sessKey, [mMsg])])

/-- A parsed transcript line with a fresh id and no actionable text. -/
def lineOf (n : Nat) : Option SimpleScript.LineRecord :=
  some ⟨some (w "x"), none, some (fid n), none⟩

/-- `floodLines s c`: transcript lines with ids `fid s … fid (s+c-1)`. -/
def floodLines : Nat → Nat → List (Option SimpleScript.LineRecord)
  | _, 0 => []
  | s, c + 1 => lineOf s :: floodLines (s + 1) c

/-- A single-file sessions directory holding 501 fresh transcript
lines, used to exhibit the unbounded growth of `processedFiles`. -/
def bigScanDir : List SimpleScript.FileEntry :=
  [⟨"sess.jsonl", "/sessions/sess.jsonl", some (floodLines 0 501)⟩]

/-!
## Shared helper lemmas
-/

/-- Concrete evaluation: the remote-session extractor on the milk
phrase. -/
theorem extractTask_milk_sync :
    SyncScript.extractTask (w "remember to buy milk") = some (w "buy milk") := by
  decide

/-- Concrete evaluation: the local-file extractor on the milk phrase. -/
theorem extractTask_milk_simple :
    SimpleScript.extractTask (w "remember to buy milk") = some (w "buy milk") := by
  decide

/-- Concrete evaluation: no task in the filler content. -/
theorem extractTask_x_sync : SyncScript.extractTask (w "x") = none := by decide

/-- Concrete evaluation: no task in the filler content (simple
variant). -/
theorem extractTask_x_simple : SimpleScript.extractTask (w "x") = none := by decide

/-- The `/^/` member of `highPriorityPatterns` tests true on every
string, so the remote-session classifier always answers `high`. -/
theorem detectPriority_sync_high (t : Str) :
    SyncScript.detectPriority t = Priority.high := by
  simp [SyncScript.detectPriority, SyncScript.highPriorityPatterns,
    List.any_cons]

/-- Generic preservation of a predicate along a left fold. -/
theorem foldl_pres {α β : Type} (P : β → Prop) (f : β → α → β)
    (h : ∀ s x, P s → P (f s x)) : ∀ (l : List α) (s : β), P s → P (l.foldl f s)
  | [], _, hs => hs
  | x :: xs, s, hs => foldl_pres P f h xs (f s x) (h s x hs)

/-- `stepMessage` on a message without id is a no-op. -/
theorem stepMessage_noId (ok : String → Bool) (st : SyncState) (c : Str) :
    SyncScript.stepMessage ok st ⟨none, c⟩ = st := rfl

/-- `stepMessage` on an already-cached id is a no-op. -/
theorem stepMessage_cached (ok : String → Bool) (st : SyncState) (mid : String)
    (c : Str) (h : mid ∈ st.cache) :
    SyncScript.stepMessage ok st ⟨some mid, c⟩ = st := by
  simp [SyncScript.stepMessage, h]

/-- `stepMessage` on a fresh id whose content has no task only marks
the id. -/
theorem stepMessage_fresh_none (ok : String → Bool) (st : SyncState)
    (mid : String) (c : Str) (h1 : ¬ mid = "") (h2 : mid ∉ st.cache)
    (h3 : SyncScript.extractTask c = none) :
    SyncScript.stepMessage ok st ⟨some mid, c⟩ =
      ⟨st.cache ++ [mid], st.dispatches⟩ := by
  simp [SyncScript.stepMessage, h1, h2, h3]

/-- `stepMessage` on a fresh id whose content yields a task dispatches
once and marks the id. -/
theorem stepMessage_fresh_some (ok : String → Bool) (st : SyncState)
    (mid : String) (c task : Str) (h1 : ¬ mid = "") (h2 : mid ∉ st.cache)
    (h3 : SyncScript.extractTask c = some task) :
    SyncScript.stepMessage ok st ⟨some mid, c⟩ =
      ⟨st.cache ++ [mid],
       st.dispatches ++ [⟨task, SyncScript.detectPriority task, mid⟩]⟩ := by
  simp [SyncScript.stepMessage, h1, h2, h3]

/-- Dispatch count after appending one dispatch record. -/
theorem countDisp_append_one (cache : List String) (D : List DispatchRec)
    (r : DispatchRec) (m : String) :
    countDisp ⟨cache, D ++ [r]⟩ m =
      countDisp ⟨cache, D⟩ m + (if r.messageId = m then 1 else 0) := by
  simp only [countDisp, List.filter_append, List.length_append]
  by_cases h : r.messageId = m <;> simp [h]

/-- Dispatch count ignores the cache component. -/
theorem countDisp_cache_irrel (c1 c2 : List String) (D : List DispatchRec)
    (m : String) : countDisp ⟨c1, D⟩ m = countDisp ⟨c2, D⟩ m := rfl

/-- One remote-session message step preserves the dedup invariant. -/
theorem stepMessage_inv (ok : String → Bool) (st : SyncState) (msg : Message)
    (m : String) (h : DispInv st m) :
    DispInv (SyncScript.stepMessage ok st msg) m := by
  obtain ⟨mid, c⟩ := msg
  match mid with
  | none => rwa [stepMessage_noId]
  | some mid =>
    by_cases h1 : mid = ""
    · simp [SyncScript.stepMessage, h1]; exact h
    · by_cases h2 : mid ∈ st.cache
      · rwa [stepMessage_cached ok st mid c h2]
      · cases h3 : SyncScript.extractTask c with
        | none =>
          rw [stepMessage_fresh_none ok st mid c h1 h2 h3]
          refine ⟨h.1, fun hm => ?_⟩
          exact h.2 (fun hc => hm (List.mem_append_left _ hc))
        | some task =>
          rw [stepMessage_fresh_some ok st mid c task h1 h2 h3]
          by_cases hm : mid = m
          · subst hm
            have h0 : countDisp ⟨st.cache ++ [mid], st.dispatches⟩ mid = 0 := h.2 h2
            constructor
            · rw [countDisp_append_one, h0]
              simp
            · intro hnc
              exact absurd (List.mem_append_right _ (by simp)) hnc
          · have hsame : countDisp ⟨st.cache ++ [mid], st.dispatches⟩ m
                = countDisp st m := rfl
            constructor
            · rw [countDisp_append_one]
              simp only [hm, if_false, Nat.add_zero, hsame]
              exact h.1
            · intro hnc
              rw [countDisp_append_one]
              simp only [hm, if_false, Nat.add_zero, hsame]
              exact h.2 (fun hc => hnc (List.mem_append_left _ hc))

/-- `stepLine` on an unparsable line is a no-op. -/
theorem stepLine_badJson (ok : String → Bool) (st : SyncState) :
    SimpleScript.stepLine ok st none = st := rfl

/-- `stepLine` on a record without usable id is a no-op. -/
theorem stepLine_noId (ok : String → Bool) (st : SyncState)
    (d : SimpleScript.LineRecord) (h : SimpleScript.lineId d = none) :
    SimpleScript.stepLine ok st (some d) = st := by
  simp [SimpleScript.stepLine, h]

/-- `stepLine` on a cached or empty id is a no-op. -/
theorem stepLine_skip (ok : String → Bool) (st : SyncState)
    (d : SimpleScript.LineRecord) (mid : String)
    (h : SimpleScript.lineId d = some mid) (hskip : mid = "" ∨ mid ∈ st.cache) :
    SimpleScript.stepLine ok st (some d) = st := by
  have : ¬ (mid ≠ "" ∧ mid ∉ st.cache) := by
    rcases hskip with h1 | h2
    · exact fun hh => hh.1 h1
    · exact fun hh => hh.2 h2
  simp [SimpleScript.stepLine, h, this]

/-- `stepLine` on a fresh id with no extractable task only marks the
id. -/
theorem stepLine_fresh_none (ok : String → Bool) (st : SyncState)
    (d : SimpleScript.LineRecord) (mid : String)
    (h : SimpleScript.lineId d = some mid) (h1 : ¬ mid = "")
    (h2 : mid ∉ st.cache)
    (h3 : SimpleScript.extractTask (SimpleScript.lineText d) = none) :
    SimpleScript.stepLine ok st (some d) = ⟨st.cache ++ [mid], st.dispatches⟩ := by
  simp [SimpleScript.stepLine, h, h1, h2, h3]

/-- `stepLine` on a fresh id with an extractable task dispatches once
and marks the id. -/
theorem stepLine_fresh_some (ok : String → Bool) (st : SyncState)
    (d : SimpleScript.LineRecord) (mid : String) (task : Str)
    (h : SimpleScript.lineId d = some mid) (h1 : ¬ mid = "")
    (h2 : mid ∉ st.cache)
    (h3 : SimpleScript.extractTask (SimpleScript.lineText d) = some task) :
    SimpleScript.stepLine ok st (some d) =
      ⟨st.cache ++ [mid],
       st.dispatches ++
         [⟨task, SimpleScript.detectPriority (SimpleScript.lineText d), mid⟩]⟩ := by
  simp [SimpleScript.stepLine, h, h1, h2, h3]

/-- One transcript-line step preserves the dedup invariant. -/
theorem stepLine_inv (ok : String → Bool) (st : SyncState)
    (line : Option SimpleScript.LineRecord) (m : String) (h : DispInv st m) :
    DispInv (SimpleScript.stepLine ok st line) m := by
  match line with
  | none => rwa [stepLine_badJson]
  | some d =>
    cases hid : SimpleScript.lineId d with
    | none => rwa [stepLine_noId ok st d hid]
    | some mid =>
      by_cases h1 : mid = ""
      · rwa [stepLine_skip ok st d mid hid (Or.inl h1)]
      · by_cases h2 : mid ∈ st.cache
        · rwa [stepLine_skip ok st d mid hid (Or.inr h2)]
        · cases h3 : SimpleScript.extractTask (SimpleScript.lineText d) with
          | none =>
            rw [stepLine_fresh_none ok st d mid hid h1 h2 h3]
            refine ⟨h.1, fun hm => ?_⟩
            exact h.2 (fun hc => hm (List.mem_append_left _ hc))
          | some task =>
            rw [stepLine_fresh_some ok st d mid task hid h1 h2 h3]
            by_cases hm : mid = m
            · subst hm
              have h0 : countDisp ⟨st.cache ++ [mid], st.dispatches⟩ mid = 0 :=
                h.2 h2
              refine ⟨?_, fun hnc =>
                absurd (List.mem_append_right _ (by simp)) hnc⟩
              rw [countDisp_append_one, h0]
              simp
            · have hsame : countDisp ⟨st.cache ++ [mid], st.dispatches⟩ m
                  = countDisp st m := rfl
              constructor
              · rw [countDisp_append_one]
                simp only [hm, if_false, Nat.add_zero, hsame]
                exact h.1
              · intro hnc
                rw [countDisp_append_one]
                simp only [hm, if_false, Nat.add_zero, hsame]
                exact h.2 (fun hc => hnc (List.mem_append_left _ hc))

/-- `processTranscript` preserves the dedup invariant. -/
theorem processTranscript_inv (ok : String → Bool) (fp : String)
    (r : Option (List (Option SimpleScript.LineRecord))) (st : SyncState)
    (m : String) (h : DispInv st m) :
    DispInv (SimpleScript.processTranscript ok fp r st) m := by
  unfold SimpleScript.processTranscript
  split
  · exact h
  · match r with
    | none => exact h
    | some lines =>
      exact foldl_pres (fun s => DispInv s m) (SimpleScript.stepLine ok)
        (fun s x hs => stepLine_inv ok s x m hs) lines st h

/-- `scanSessions` preserves the dedup invariant. -/
theorem scanSessions_inv (ok : String → Bool)
    (dir : Option (List SimpleScript.FileEntry)) (st : SyncState) (m : String)
    (h : DispInv st m) : DispInv (SimpleScript.scanSessions ok dir st) m := by
  unfold SimpleScript.scanSessions
  match dir with
  | none => exact h
  | some files =>
    refine foldl_pres (fun s => DispInv s m) _ (fun s f hs => ?_) files st h
    dsimp only
    split
    · exact processTranscript_inv ok f.path f.read s m hs
    · exact hs

/-- Any number of local-file polls keeps the per-identifier dispatch
count at `≤ 1`, from a state satisfying the invariant. -/
theorem runScans_inv (ok : String → Bool)
    (polls : List (Option (List SimpleScript.FileEntry))) (st : SyncState)
    (m : String) (h : DispInv st m) :
    DispInv (SimpleScript.runScans ok polls st) m :=
  foldl_pres (fun s => DispInv s m) _
    (fun s p hs => scanSessions_inv ok p s m hs) polls st h

/-- A remote-session run along which the eviction block never fires
preserves the dedup invariant. -/
theorem runSessions_inv (ok : String → Bool) :
    ∀ (batches : List (String × List Message)) (st : SyncState) (m : String),
      DispInv st m → SyncScript.noEvictRun ok batches st = true →
      DispInv (SyncScript.runSessions ok batches st) m
  | [], st, m, h, _ => h
  | b :: bs, st, m, h, hne => by
    rw [SyncScript.noEvictRun, Bool.and_eq_true] at hne
    have hstep : DispInv (SyncScript.processSession ok b.1 b.2 st) m := by
      cases hL : b.2.getLast? with
      | none => simp only [SyncScript.processSession, hL]; exact h
      | some lastMessage =>
        have hlen := hne.1
        rw [hL] at hlen
        dsimp only at hlen
        simp only [SyncScript.processSession, hL]
        by_cases hu : SyncScript.unchangedCheck st.cache b.1 lastMessage.messageId = true
        · rw [if_pos hu]
          exact h
        · rw [if_neg hu]
          rw [if_neg hu, decide_eq_true_eq] at hlen
          have hfold :
              DispInv ((b.2.drop (b.2.length - 5)).foldl
                (SyncScript.stepMessage ok) st) m :=
            foldl_pres (fun s => DispInv s m) _
              (fun s x hs => stepMessage_inv ok s x m hs) _ st h
          unfold SyncScript.evict
          rw [if_neg (by omega)]
          exact hfold
    have hrest := hne.2
    have : SyncScript.runSessions ok (b :: bs) st
        = SyncScript.runSessions ok bs (SyncScript.processSession ok b.1 b.2 st) := rfl
    rw [this]
    exact runSessions_inv ok bs _ m hstep hrest

/-- Case shape of one `stepMessage` step: no-op, mark only, or
dispatch-and-mark, always for the messageʼs own id. -/
theorem stepMessage_shape (ok : String → Bool) (st : SyncState) (x : Message) :
    SyncScript.stepMessage ok st x = st ∨
    ∃ mid, x.messageId = some mid ∧
      (SyncScript.stepMessage ok st x = ⟨st.cache ++ [mid], st.dispatches⟩ ∨
       ∃ task, SyncScript.stepMessage ok st x =
         ⟨st.cache ++ [mid],
          st.dispatches ++ [⟨task, SyncScript.detectPriority task, mid⟩]⟩) := by
  obtain ⟨mid, c⟩ := x
  match mid with
  | none => exact Or.inl (stepMessage_noId ok st c)
  | some mid =>
    by_cases h1 : mid = ""
    · exact Or.inl (by simp [SyncScript.stepMessage, h1])
    · by_cases h2 : mid ∈ st.cache
      · exact Or.inl (stepMessage_cached ok st mid c h2)
      · refine Or.inr ⟨mid, rfl, ?_⟩
        cases h3 : SyncScript.extractTask c with
        | none => exact Or.inl (stepMessage_fresh_none ok st mid c h1 h2 h3)
        | some task =>
          exact Or.inr ⟨task, stepMessage_fresh_some ok st mid c task h1 h2 h3⟩

/-- Folding `stepMessage` over a message list only appends: the new
cache entries and dispatch records all come from ids of the processed
list, and at most one cache entry is added per message. -/
theorem foldl_stepMessage_shape (ok : String → Bool) :
    ∀ (l : List Message) (st : SyncState),
      ∃ newIds newDisp,
        (l.foldl (SyncScript.stepMessage ok) st).cache = st.cache ++ newIds ∧
        (l.foldl (SyncScript.stepMessage ok) st).dispatches
          = st.dispatches ++ newDisp ∧
        (∀ i ∈ newIds, ∃ m ∈ l, m.messageId = some i) ∧
        (∀ d ∈ newDisp, ∃ m ∈ l, m.messageId = some d.messageId) ∧
        newIds.length ≤ l.length
  | [], st => ⟨[], [], by simp, by simp, by simp, by simp, by simp⟩
  | x :: xs, st => by
    obtain ⟨ids2, dsp2, hc2, hd2, hpi2, hpd2, hl2⟩ :=
      foldl_stepMessage_shape ok xs (SyncScript.stepMessage ok st x)
    rcases stepMessage_shape ok st x with h | ⟨mid, hmid, h | ⟨task, h⟩⟩
    · refine ⟨ids2, dsp2, ?_, ?_, ?_, ?_, ?_⟩
      · simpa [h] using hc2
      · simpa [h] using hd2
      · exact fun i hi => (hpi2 i hi).imp fun m hm => ⟨List.mem_cons_of_mem _ hm.1, hm.2⟩
      · exact fun d hd => (hpd2 d hd).imp fun m hm => ⟨List.mem_cons_of_mem _ hm.1, hm.2⟩
      · simpa using Nat.le_succ_of_le hl2
    · refine ⟨mid :: ids2, dsp2, ?_, ?_, ?_, ?_, ?_⟩
      · rw [List.foldl_cons, hc2, h]
        simp
      · rw [List.foldl_cons, hd2, h]
      · intro i hi
        rcases List.mem_cons.1 hi with rfl | hi2
        · exact ⟨x, List.mem_cons_self _ _, hmid⟩
        · exact (hpi2 i hi2).imp fun m hm => ⟨List.mem_cons_of_mem _ hm.1, hm.2⟩
      · exact fun d hd => (hpd2 d hd).imp fun m hm => ⟨List.mem_cons_of_mem _ hm.1, hm.2⟩
      · simpa using Nat.succ_le_succ hl2
    · refine ⟨mid :: ids2, (⟨task, SyncScript.detectPriority task, mid⟩ : DispatchRec) :: dsp2,
        ?_, ?_, ?_, ?_, ?_⟩
      · rw [List.foldl_cons, hc2, h]
        simp
      · rw [List.foldl_cons, hd2, h]
        simp
      · intro i hi
        rcases List.mem_cons.1 hi with rfl | hi2
        · exact ⟨x, List.mem_cons_self _ _, hmid⟩
        · exact (hpi2 i hi2).imp fun m hm => ⟨List.mem_cons_of_mem _ hm.1, hm.2⟩
      · intro d hd
        rcases List.mem_cons.1 hd with rfl | hd2
        · exact ⟨x, List.mem_cons_self _ _, hmid⟩
        · exact (hpd2 d hd2).imp fun m hm => ⟨List.mem_cons_of_mem _ hm.1, hm.2⟩
      · simpa using Nat.succ_le_succ hl2

/-- Folding `stepLine` over transcript lines only appends to the
cache and to the dispatch log. -/
theorem foldl_stepLine_shape (ok : String → Bool) :
    ∀ (l : List (Option SimpleScript.LineRecord)) (st : SyncState),
      ∃ newIds newDisp,
        (l.foldl (SimpleScript.stepLine ok) st).cache = st.cache ++ newIds ∧
        (l.foldl (SimpleScript.stepLine ok) st).dispatches
          = st.dispatches ++ newDisp
  | [], st => ⟨[], [], by simp, by simp⟩
  | x :: xs, st => by
    obtain ⟨ids2, dsp2, hc2, hd2⟩ :=
      foldl_stepLine_shape ok xs (SimpleScript.stepLine ok st x)
    have hx : (SimpleScript.stepLine ok st x).cache = st.cache
        ∨ ∃ mid, (SimpleScript.stepLine ok st x).cache = st.cache ++ [mid] := by
      match x with
      | none => exact Or.inl rfl
      | some d =>
        cases hid : SimpleScript.lineId d with
        | none => exact Or.inl (by rw [stepLine_noId ok st d hid])
        | some mid =>
          by_cases h1 : mid = ""
          · exact Or.inl (by rw [stepLine_skip ok st d mid hid (Or.inl h1)])
          · by_cases h2 : mid ∈ st.cache
            · exact Or.inl (by rw [stepLine_skip ok st d mid hid (Or.inr h2)])
            · cases h3 : SimpleScript.extractTask (SimpleScript.lineText d) with
              | none =>
                exact Or.inr ⟨mid, by rw [stepLine_fresh_none ok st d mid hid h1 h2 h3]⟩
              | some task =>
                exact Or.inr ⟨mid, by rw [stepLine_fresh_some ok st d mid task hid h1 h2 h3]⟩
    have hxd : ∃ nd, (SimpleScript.stepLine ok st x).dispatches
        = st.dispatches ++ nd := by
      match x with
      | none => exact ⟨[], by simp [stepLine_badJson]⟩
      | some d =>
        cases hid : SimpleScript.lineId d with
        | none => exact ⟨[], by rw [stepLine_noId ok st d hid]; simp⟩
        | some mid =>
          by_cases h1 : mid = ""
          · exact ⟨[], by rw [stepLine_skip ok st d mid hid (Or.inl h1)]; simp⟩
          · by_cases h2 : mid ∈ st.cache
            · exact ⟨[], by rw [stepLine_skip ok st d mid hid (Or.inr h2)]; simp⟩
            · cases h3 : SimpleScript.extractTask (SimpleScript.lineText d) with
              | none =>
                exact ⟨[], by rw [stepLine_fresh_none ok st d mid hid h1 h2 h3]; simp⟩
              | some task =>
                refine ⟨[⟨task, SimpleScript.detectPriority (SimpleScript.lineText d), mid⟩], ?_⟩
                rw [stepLine_fresh_some ok st d mid task hid h1 h2 h3]
    obtain ⟨nd, hnd⟩ := hxd
    rcases hx with hx | ⟨mid, hx⟩
    · exact ⟨ids2, nd ++ dsp2, by rw [List.foldl_cons, hc2, hx],
        by rw [List.foldl_cons, hd2, hnd, List.append_assoc]⟩
    · exact ⟨mid :: ids2, nd ++ dsp2,
        by rw [List.foldl_cons, hc2, hx]; simp,
        by rw [List.foldl_cons, hd2, hnd, List.append_assoc]⟩

/-- The flood-id generator is injective. -/
theorem fid_inj {a b : Nat} (h : fid a = fid b) : a = b := by
  have hd : List.replicate (a + 1) 'f' = List.replicate (b + 1) 'f' :=
    congrArg String.data h
  have := congrArg List.length hd
  simpa using this

/-- Flood ids are never the empty string. -/
theorem fid_ne_empty (n : Nat) : fid n ≠ "" := by
  intro h
  have hd : List.replicate (n + 1) 'f' = ([] : List Char) :=
    congrArg String.data h
  rw [List.replicate_succ] at hd
  exact List.cons_ne_nil _ _ hd

/-- Flood ids differ from the task-message id. -/
theorem fid_ne_m1 (n : Nat) : fid n ≠ "m1" := by
  intro h
  have hd : List.replicate (n + 1) 'f' = ['m', '1'] := congrArg String.data h
  rw [List.replicate_succ] at hd
  have : 'f' = 'm' := (List.cons.injEq _ _ _ _ ▸ hd).1
  exact absurd this (by decide)

/-- Flood ids differ from the session key. -/
theorem fid_ne_sessKey (n : Nat) : fid n ≠ sessKey := by
  intro h
  have hd : List.replicate (n + 1) 'f' = sessKey.data := congrArg String.data h
  rw [List.replicate_succ] at hd
  have h2 : 'f' = 'a' := by
    have : sessKey.data = 'a' :: (String.data "gent:main:main") := rfl
    rw [this] at hd
    exact (List.cons.injEq _ _ _ _ ▸ hd).1
  exact absurd h2 (by decide)

/-- Membership in a flood-id range. -/
theorem mem_fids {x : String} : ∀ {s c : Nat}, x ∈ fids s c →
    ∃ n, s ≤ n ∧ n < s + c ∧ x = fid n := by
  intro s c
  induction c generalizing s with
  | zero => intro h; exact absurd h (List.not_mem_nil x)
  | succ c ih =>
    intro h
    rcases List.mem_cons.1 h with rfl | h2
    · exact ⟨s, Nat.le_refl s, by omega, rfl⟩
    · obtain ⟨n, h1, h2, h3⟩ := ih h2
      exact ⟨n, by omega, by omega, h3⟩

/-- The task-message id is never among flood ids. -/
theorem m1_not_mem_fids (s c : Nat) : "m1" ∉ fids s c := by
  intro h
  obtain ⟨n, _, _, h3⟩ := mem_fids h
  exact fid_ne_m1 n h3.symm

/-- The session key is never among flood ids. -/
theorem sessKey_not_mem_fids (s c : Nat) : sessKey ∉ fids s c := by
  intro h
  obtain ⟨n, _, _, h3⟩ := mem_fids h
  exact fid_ne_sessKey n h3.symm

/-- A flood id beyond the range is not in it. -/
theorem fid_not_mem_fids {n s c : Nat} (h : s + c ≤ n) : fid n ∉ fids s c := by
  intro hm
  obtain ⟨n2, _, h2, h3⟩ := mem_fids hm
  have := fid_inj h3
  omega

/-- Appending the next flood id extends the range. -/
theorem fids_append_one : ∀ (s c : Nat), fids s c ++ [fid (s + c)] = fids s (c + 1) := by
  intro s c
  induction c generalizing s with
  | zero => simp [fids]
  | succ c ih =>
    have h1 : fids s (c + 1) = fid s :: fids (s + 1) c := rfl
    have h2 : fids s (c + 1 + 1) = fid s :: fids (s + 1) (c + 1) := rfl
    rw [h1, h2, List.cons_append, show s + (c + 1) = (s + 1) + c from by omega,
      ih (s + 1)]

/-- Length of a flood-id range. -/
theorem length_fids : ∀ (s c : Nat), (fids s c).length = c := by
  intro s c
  induction c generalizing s with
  | zero => rfl
  | succ c ih => simpa [fids] using ih (s + 1)

/-- Dropping from the front of a flood-id range shifts it. -/
theorem drop_fids : ∀ (j s c : Nat), (fids s c).drop j = fids (s + j) (c - j) := by
  intro j
  induction j with
  | zero => intro s c; simp
  | succ j ih =>
    intro s c
    match c with
    | 0 => simp [fids]
    | c + 1 =>
      have h1 : fids s (c + 1) = fid s :: fids (s + 1) c := rfl
      rw [h1, List.drop_succ_cons, ih (s + 1) c]
      congr 1 <;> omega

/-- A fresh flood message only extends the cache. -/
theorem stepMessage_flood (ok : String → Bool) (D : List DispatchRec) (n : Nat) :
    SyncScript.stepMessage ok ⟨"m1" :: fids 0 n, D⟩ (fMsg n)
      = ⟨"m1" :: fids 0 (n + 1), D⟩ := by
  have hnotmem : fid n ∉ ("m1" :: fids 0 n : List String) := by
    intro h
    rcases List.mem_cons.1 h with h1 | h2
    · exact fid_ne_m1 n h1
    · exact fid_not_mem_fids (by omega) h2
  have h := stepMessage_fresh_none ok ⟨"m1" :: fids 0 n, D⟩ (fid n) (w "x")
    (fid_ne_empty n) hnotmem extractTask_x_sync
  rw [show fMsg n = (⟨some (fid n), w "x"⟩ : Message) from rfl, h]
  have : ("m1" :: fids 0 n) ++ [fid n] = "m1" :: fids 0 (n + 1) := by
    rw [List.cons_append, show fid n = fid (0 + n) from by rw [Nat.zero_add],
      fids_append_one 0 n]
  rw [this]

/-- Processing one flood batch while under the cap appends its five ids
and does not evict. -/
theorem processSession_floodBatch (ok : String → Bool) (D : List DispatchRec)
    (k : Nat) (hk : k ≤ 98) :
    SyncScript.processSession ok sessKey (floodBatch k) ⟨"m1" :: fids 0 (5 * k), D⟩
      = ⟨"m1" :: fids 0 (5 * k + 5), D⟩ := by
  have hL : (floodBatch k).getLast? = some (fMsg (5 * k + 4)) := rfl
  have hsk : sessKey ∉ ("m1" :: fids 0 (5 * k) : List String) := by
    intro h
    rcases List.mem_cons.1 h with h1 | h2
    · exact absurd h1 (by decide)
    · exact sessKey_not_mem_fids 0 (5 * k) h2
  have hu : SyncScript.unchangedCheck ("m1" :: fids 0 (5 * k)) sessKey
      (fMsg (5 * k + 4)).messageId = false := by
    unfold SyncScript.unchangedCheck
    rw [if_neg hsk]
    rfl
  have hfold : List.foldl (SyncScript.stepMessage ok) ⟨"m1" :: fids 0 (5 * k), D⟩
      (floodBatch k) = ⟨"m1" :: fids 0 (5 * k + 5), D⟩ := by
    show List.foldl (SyncScript.stepMessage ok) _
      [fMsg (5 * k), fMsg (5 * k + 1), fMsg (5 * k + 2), fMsg (5 * k + 3),
       fMsg (5 * k + 4)] = _
    rw [List.foldl_cons, stepMessage_flood ok D (5 * k),
      List.foldl_cons, stepMessage_flood ok D (5 * k + 1),
      List.foldl_cons, stepMessage_flood ok D (5 * k + 2),
      List.foldl_cons, stepMessage_flood ok D (5 * k + 3),
      List.foldl_cons, stepMessage_flood ok D (5 * k + 4)]
    rfl
  unfold SyncScript.processSession
  rw [hL]
  simp only [hu, Bool.false_eq_true, if_false,
    show (floodBatch k).length - 5 = 0 from rfl, List.drop_zero, hfold]
  unfold SyncScript.evict
  rw [if_neg ?hlen]
  case hlen =>
    simp only [SyncScript.cacheCap, List.length_cons, length_fids]
    omega

/-- Running consecutive flood batches that stay under the cap appends
all their ids. -/
theorem runSessions_flood (ok : String → Bool) (D : List DispatchRec) :
    ∀ (cnt k : Nat), k + cnt ≤ 99 →
      SyncScript.runSessions ok (floodBatches k cnt) ⟨"m1" :: fids 0 (5 * k), D⟩
        = ⟨"m1" :: fids 0 (5 * (k + cnt)), D⟩ := by
  intro cnt
  induction cnt with
  | zero => intro k _; rfl
  | succ c ih =>
    intro k hk
    have h1 : SyncScript.runSessions ok (floodBatches k (c + 1))
        ⟨"m1" :: fids 0 (5 * k), D⟩
        = SyncScript.runSessions ok (floodBatches (k + 1) c)
            (SyncScript.processSession ok sessKey (floodBatch k)
              ⟨"m1" :: fids 0 (5 * k), D⟩) := rfl
    rw [h1, processSession_floodBatch ok D k (by omega),
      show 5 * k + 5 = 5 * (k + 1) from by omega, ih (k + 1) (by omega),
      show (k + 1) + c = k + (c + 1) from by omega]

/-- Splitting the last batch off a flood-batch range. -/
theorem floodBatches_append_one : ∀ (k c : Nat),
    floodBatches k (c + 1) = floodBatches k c ++ [(sessKey, floodBatch (k + c))] := by
  intro k c
  induction c generalizing k with
  | zero => simp [floodBatches]
  | succ c ih =>
    have h1 : floodBatches k (c + 1 + 1)
        = (sessKey, floodBatch k) :: floodBatches (k + 1) (c + 1) := rfl
    have h2 : floodBatches k (c + 1)
        = (sessKey, floodBatch k) :: floodBatches (k + 1) c := rfl
    rw [h1, ih (k + 1), h2, List.cons_append,
      show k + 1 + c = k + (c + 1) from by omega]

/-- The hundredth flood batch pushes the cache to 501 entries and the
eviction block drops the 100 oldest (the `"m1"` mark among them). -/
theorem processSession_floodBatch99 (ok : String → Bool) (D : List DispatchRec) :
    SyncScript.processSession ok sessKey (floodBatch 99)
      ⟨"m1" :: fids 0 (5 * 99), D⟩ = ⟨fids 99 401, D⟩ := by
  have hL : (floodBatch 99).getLast? = some (fMsg (5 * 99 + 4)) := rfl
  have hsk : sessKey ∉ ("m1" :: fids 0 (5 * 99) : List String) := by
    intro h
    rcases List.mem_cons.1 h with h1 | h2
    · exact absurd h1 (by decide)
    · exact sessKey_not_mem_fids 0 (5 * 99) h2
  have hu : SyncScript.unchangedCheck ("m1" :: fids 0 (5 * 99)) sessKey
      (fMsg (5 * 99 + 4)).messageId = false := by
    unfold SyncScript.unchangedCheck
    rw [if_neg hsk]
    rfl
  have hfold : List.foldl (SyncScript.stepMessage ok)
      ⟨"m1" :: fids 0 (5 * 99), D⟩ (floodBatch 99)
      = ⟨"m1" :: fids 0 (5 * 99 + 5), D⟩ := by
    show List.foldl (SyncScript.stepMessage ok) _
      [fMsg (5 * 99), fMsg (5 * 99 + 1), fMsg (5 * 99 + 2), fMsg (5 * 99 + 3),
       fMsg (5 * 99 + 4)] = _
    rw [List.foldl_cons, stepMessage_flood ok D (5 * 99),
      List.foldl_cons, stepMessage_flood ok D (5 * 99 + 1),
      List.foldl_cons, stepMessage_flood ok D (5 * 99 + 2),
      List.foldl_cons, stepMessage_flood ok D (5 * 99 + 3),
      List.foldl_cons, stepMessage_flood ok D (5 * 99 + 4)]
    rfl
  unfold SyncScript.processSession
  rw [hL]
  simp only [hu, Bool.false_eq_true, if_false,
    show (floodBatch 99).length - 5 = 0 from rfl, List.drop_zero, hfold]
  unfold SyncScript.evict
  rw [if_pos ?hlen]
  case hlen =>
    simp only [SyncScript.cacheCap, List.length_cons, length_fids]
    omega
  · have : ("m1" :: fids 0 (5 * 99 + 5) : List String).drop 100
        = fids 99 401 := by
      rw [List.drop_succ_cons, drop_fids 99 0 (5 * 99 + 5)]
    rw [this]

/-- The very first feed of the task message dispatches it and marks
its id. -/
theorem processSession_m1_first (ok : String → Bool) :
    SyncScript.processSession ok sessKey [mMsg] initState
      = ⟨["m1"],
         [⟨w "buy milk", SyncScript.detectPriority (w "buy milk"), "m1"⟩]⟩ := by
  have hstep := stepMessage_fresh_some ok initState "m1" (w "remember to buy milk")
    (w "buy milk") (by decide) (by simp [initState]) extractTask_milk_sync
  unfold SyncScript.processSession
  rw [show ([mMsg] : List Message).getLast? = some mMsg from rfl]
  simp only [show SyncScript.unchangedCheck initState.cache sessKey mMsg.messageId
      = false from rfl, Bool.false_eq_true, if_false,
    show ([mMsg] : List Message).length - 5 = 0 from rfl, List.drop_zero]
  rw [show List.foldl (SyncScript.stepMessage ok) initState [mMsg]
      = SyncScript.stepMessage ok initState mMsg from rfl,
    show mMsg = (⟨some "m1", w "remember to buy milk"⟩ : Message) from rfl, hstep]
  unfold SyncScript.evict
  rw [if_neg (by simp [SyncScript.cacheCap, initState])]
  rfl

/-- Feeding the task message again after its mark was evicted
dispatches it a second time. -/
theorem processSession_m1_refeed (ok : String → Bool) (D : List DispatchRec) :
    SyncScript.processSession ok sessKey [mMsg] ⟨fids 99 401, D⟩
      = ⟨fids 99 401 ++ ["m1"],
         D ++ [⟨w "buy milk", SyncScript.detectPriority (w "buy milk"), "m1"⟩]⟩ := by
  have hm1 : ("m1" : String) ∉ fids 99 401 := m1_not_mem_fids 99 401
  have hstep := stepMessage_fresh_some ok ⟨fids 99 401, D⟩ "m1"
    (w "remember to buy milk") (w "buy milk") (by decide) hm1 extractTask_milk_sync
  have hu : SyncScript.unchangedCheck (fids 99 401) sessKey mMsg.messageId
      = false := by
    unfold SyncScript.unchangedCheck
    rw [if_neg (sessKey_not_mem_fids 99 401)]
    rfl
  unfold SyncScript.processSession
  rw [show ([mMsg] : List Message).getLast? = some mMsg from rfl]
  simp only [hu, Bool.false_eq_true, if_false,
    show ([mMsg] : List Message).length - 5 = 0 from rfl, List.drop_zero]
  rw [show List.foldl (SyncScript.stepMessage ok) ⟨fids 99 401, D⟩ [mMsg]
      = SyncScript.stepMessage ok ⟨fids 99 401, D⟩ mMsg from rfl,
    show mMsg = (⟨some "m1", w "remember to buy milk"⟩ : Message) from rfl, hstep]
  unfold SyncScript.evict
  rw [if_neg (by
    simp only [SyncScript.cacheCap, List.length_append, length_fids,
      List.length_cons, List.length_nil]
    omega)]

/-- Unfolding one batch of a remote-session run. -/
theorem runSessions_cons (ok : String → Bool) (b : String × List Message)
    (bs : List (String × List Message)) (st : SyncState) :
    SyncScript.runSessions ok (b :: bs) st
      = SyncScript.runSessions ok bs (SyncScript.processSession ok b.1 b.2 st) := rfl

/-- A remote-session run splits along list append. -/
theorem runSessions_append (ok : String → Bool)
    (l1 l2 : List (String × List Message)) (st : SyncState) :
    SyncScript.runSessions ok (l1 ++ l2) st
      = SyncScript.runSessions ok l2 (SyncScript.runSessions ok l1 st) := by
  unfold SyncScript.runSessions
  rw [List.foldl_append]

/-- Full computation of the eviction run: the task message is
dispatched twice. -/
theorem evictionRun_eval (ok : String → Bool) :
    SyncScript.runSessions ok evictionRun initState
      = ⟨fids 99 401 ++ ["m1"],
         [⟨w "buy milk", SyncScript.detectPriority (w "buy milk"), "m1"⟩,
          ⟨w "buy milk", SyncScript.detectPriority (w "buy milk"), "m1"⟩]⟩ := by
  rw [show evictionRun
      = (sessKey, [mMsg]) :: (floodBatches 0 100 ++ [(sessKey, [mMsg])]) from rfl]
  rw [runSessions_cons]
  dsimp only
  rw [processSession_m1_first ok]
  have h1 : floodBatches 0 100
      = floodBatches 0 99 ++ [(sessKey, floodBatch 99)] := by
    have := floodBatches_append_one 0 99
    simpa using this
  rw [h1, List.append_assoc, runSessions_append]
  have h2 : SyncScript.runSessions ok (floodBatches 0 99)
      ⟨["m1"], [⟨w "buy milk", SyncScript.detectPriority (w "buy milk"), "m1"⟩]⟩
      = ⟨"m1" :: fids 0 (5 * 99),
         [⟨w "buy milk", SyncScript.detectPriority (w "buy milk"), "m1"⟩]⟩ := by
    have h := runSessions_flood ok
      [⟨w "buy milk", SyncScript.detectPriority (w "buy milk"), "m1"⟩] 99 0
      (by omega)
    have e1 : (⟨"m1" :: fids 0 (5 * 0),
        [⟨w "buy milk", SyncScript.detectPriority (w "buy milk"), "m1"⟩]⟩ : SyncState)
        = ⟨["m1"], [⟨w "buy milk", SyncScript.detectPriority (w "buy milk"), "m1"⟩]⟩ := rfl
    have e2 : 0 + 99 = 99 := rfl
    rw [e2] at h
    rw [e1] at h
    exact h
  rw [h2]
  rw [show ([(sessKey, floodBatch 99)] ++ [(sessKey, [mMsg])] :
      List (String × List Message))
    = [(sessKey, floodBatch 99), (sessKey, [mMsg])] from rfl]
  rw [runSessions_cons]
  dsimp only
  rw [processSession_floodBatch99 ok]
  rw [runSessions_cons]
  dsimp only
  rw [processSession_m1_refeed ok]
  rfl

/-- A fresh flood transcript line only extends the cache (simple
variant). -/
theorem stepLine_flood (ok : String → Bool) (D : List DispatchRec) (n : Nat) :
    SimpleScript.stepLine ok ⟨fids 0 n, D⟩ (lineOf n) = ⟨fids 0 (n + 1), D⟩ := by
  have hid : SimpleScript.lineId ⟨some (w "x"), none, some (fid n), none⟩
      = some (fid n) := by
    unfold SimpleScript.lineId
    dsimp only
    rw [if_neg (fid_ne_empty n)]
  have htext : SimpleScript.lineText ⟨some (w "x"), none, some (fid n), none⟩
      = w "x" := rfl
  have h := stepLine_fresh_none ok ⟨fids 0 n, D⟩
    ⟨some (w "x"), none, some (fid n), none⟩ (fid n) hid (fid_ne_empty n)
    (fid_not_mem_fids (by omega)) (by rw [htext]; exact extractTask_x_simple)
  rw [show lineOf n = some (⟨some (w "x"), none, some (fid n), none⟩ :
      SimpleScript.LineRecord) from rfl, h]
  have : fids 0 n ++ [fid n] = fids 0 (n + 1) := by
    rw [show fid n = fid (0 + n) from by rw [Nat.zero_add], fids_append_one 0 n]
  rw [this]

/-- Folding fresh flood lines appends all their ids and dispatches
nothing. -/
theorem foldl_floodLines (ok : String → Bool) (D : List DispatchRec) :
    ∀ (c s : Nat),
      List.foldl (SimpleScript.stepLine ok) ⟨fids 0 s, D⟩ (floodLines s c)
        = ⟨fids 0 (s + c), D⟩ := by
  intro c
  induction c with
  | zero => intro s; rfl
  | succ c ih =>
    intro s
    rw [show floodLines s (c + 1) = lineOf s :: floodLines (s + 1) c from rfl,
      List.foldl_cons, stepLine_flood ok D s, ih (s + 1),
      show s + 1 + c = s + (c + 1) from by omega]

/-- Full computation of the 501-line transcript scan: every id is
cached, nothing is ever evicted. -/
theorem bigTranscript_eval (ok : String → Bool) :
    SimpleScript.processTranscript ok "/sessions/sess.jsonl"
      (some (floodLines 0 501)) initState = ⟨fids 0 501, []⟩ := by
  unfold SimpleScript.processTranscript
  rw [if_neg (by simp [initState])]
  dsimp only
  have h := foldl_floodLines ok [] 501 0
  rw [show (⟨fids 0 0, []⟩ : SyncState) = initState from rfl,
    show (0 + 501 : Nat) = 501 from rfl] at h
  rw [h]

/-- `firstSome` succeeds only through one of its alternatives. -/
theorem firstSome_some {α β : Type} {l : List α} {f : α → Option β} {b : β}
    (h : firstSome l f = some b) : ∃ a ∈ l, f a = some b := by
  induction l with
  | nil => exact absurd h (by simp [firstSome])
  | cons a as ih =>
    rw [firstSome] at h
    cases ha : f a with
    | some b2 =>
      rw [ha] at h
      simp only [Option.some_orElse] at h
      exact ⟨a, List.mem_cons_self _ _, ha ▸ h⟩
    | none =>
      rw [ha] at h
      simp only [Option.none_orElse] at h
      exact (ih h).imp fun x hx => ⟨List.mem_cons_of_mem _ hx.1, hx.2⟩

/-- A successful case-insensitive literal match puts every (lowered)
literal character into the lowered text. -/
theorem stripLiteralCI_mem : ∀ {lit s r : Str},
    stripLiteralCI lit s = some r →
    ∀ ch ∈ lit, ch.toLower ∈ s.map Char.toLower := by
  intro lit
  induction lit with
  | nil => intro s r _ ch hch; exact absurd hch (List.not_mem_nil ch)
  | cons l ls ih =>
    intro s r h ch hch
    match s with
    | [] => exact absurd h (by simp [stripLiteralCI])
    | c :: cs =>
      rw [stripLiteralCI] at h
      by_cases he : ciEq l c
      · rw [if_pos he] at h
        rcases List.mem_cons.1 hch with rfl | hch2
        · have : ch.toLower = c.toLower := by
            have := he
            unfold ciEq at this
            exact of_decide_eq_true this
          rw [this, List.map_cons]
          exact List.mem_cons_self _ _
        · rw [List.map_cons]
          exact List.mem_cons_of_mem _ (ih h ch hch2)
      · rw [if_neg he] at h
        exact absurd h (by simp)

/-- A pattern-1 match starts with one of the verbs. -/
theorem tryPat1At_some {s : Str} {cap : Str} (h : tryPat1At s = some cap) :
    ∃ v ∈ pat1Verbs, ∃ r, stripLiteralCI v s = some r := by
  obtain ⟨v, hv, hfv⟩ := firstSome_some h
  rcases hb : stripLiteralCI v s with _ | r
  · rw [tryPat1At] at h
    exact absurd hfv (by rw [hb]; simp)
  · exact ⟨v, hv, r, hb⟩

/-- A pattern-1 match happens at some suffix position. -/
theorem findPat1_some : ∀ {t cap : Str}, findPat1 t = some cap →
    ∃ s, s <:+ t ∧ tryPat1At s = some cap := by
  intro t
  induction t with
  | nil => intro cap h; exact absurd h (by simp [findPat1])
  | cons c rest ih =>
    intro cap h
    rw [findPat1] at h
    cases h1 : tryPat1At (c :: rest) with
    | some cap2 =>
      rw [h1] at h
      simp only [Option.some_orElse] at h
      exact ⟨c :: rest, List.suffix_refl _, h1.trans h⟩
    | none =>
      rw [h1] at h
      simp only [Option.none_orElse] at h
      obtain ⟨s, hs, h2⟩ := ih h
      exact ⟨s, hs.trans (List.suffix_cons c rest), h2⟩

/-- If the lowered text has no letter `a`, pattern 1 cannot match
(every verb alternative contains an `a`). -/
theorem findPat1_none_of_no_a {t : Str}
    (h : 'a' ∉ t.map Char.toLower) : findPat1 t = none := by
  cases hf : findPat1 t with
  | none => rfl
  | some cap =>
    exfalso
    obtain ⟨s, hs, h2⟩ := findPat1_some hf
    obtain ⟨v, hv, r, h3⟩ := tryPat1At_some h2
    have hav : 'a' ∈ v := by
      simp only [pat1Verbs, List.mem_cons, List.not_mem_nil, or_false] at hv
      rcases hv with rfl | rfl | rfl <;> decide
    have hmem : ('a' : Char).toLower ∈ s.map Char.toLower :=
      stripLiteralCI_mem h3 'a' hav
    have hsub : s.map Char.toLower <:+ t.map Char.toLower :=
      List.IsSuffix.map _ hs
    have : ('a' : Char).toLower ∈ t.map Char.toLower := hsub.subset hmem
    rw [show ('a' : Char).toLower = 'a' from rfl] at this
    exact h this

/-- Sentence punctuation is lower-case-invariant and not the letter
`a`. -/
theorem punct_toLower_ne_a {c : Char} (h : punctChar c = true) :
    c.toLower ≠ 'a' := by
  have hc : (c = '.' ∨ c = '!') ∨ c = '?' := by
    simpa [punctChar] using h
  rcases hc with (rfl | rfl) | rfl <;> decide

/-- The milk phrase followed by sentence punctuation contains no
letter `a`. -/
theorem no_a_in_milk {q : Str} (hq : ∀ c ∈ q, punctChar c = true) :
    'a' ∉ (w "remember to buy milk" ++ q).map Char.toLower := by
  rw [List.map_append]
  intro h
  rcases List.mem_append.1 h with h1 | h1
  · exact absurd h1 (by decide)
  · obtain ⟨c, hc, hcl⟩ := List.mem_map.1 h1
    exact punct_toLower_ne_a (hq c hc) hcl

/-- Pattern 2 on the milk phrase captures the whole remaining line. -/
theorem findPat2_milk (q : Str) : findPat2 (w "remember to buy milk" ++ q)
    = some (w "buy milk" ++ q.takeWhile dotChar) := rfl

/-- Sentence punctuation is not a line terminator. -/
theorem punct_dotChar {c : Char} (h : punctChar c = true) : dotChar c = true := by
  have hc : (c = '.' ∨ c = '!') ∨ c = '?' := by
    simpa [punctChar] using h
  rcases hc with (rfl | rfl) | rfl <;> decide

/-- `takeWhile dotChar` keeps a punctuation-only suffix whole. -/
theorem takeWhile_dot_punct {q : Str} (hq : ∀ c ∈ q, punctChar c = true) :
    q.takeWhile dotChar = q := by
  induction q with
  | nil => rfl
  | cons c q2 ih =>
    rw [List.takeWhile_cons,
      if_pos (punct_dotChar (hq c (List.mem_cons_self _ _))),
      ih (fun x hx => hq x (List.mem_cons_of_mem _ hx))]

/-- A list none of whose elements satisfies `p` is untouched by
`dropWhile`. -/
theorem dropWhile_eq_self_of_all_false {p : Char → Bool} : ∀ {l : Str},
    (∀ c ∈ l, p c = false) → l.dropWhile p = l := by
  intro l h
  match l with
  | [] => rfl
  | c :: r =>
    rw [List.dropWhile_cons, h c (List.mem_cons_self _ _)]
    simp

/-- Sentence punctuation is not whitespace. -/
theorem punct_not_ws {c : Char} (h : punctChar c = true) : wsChar c = false := by
  have hc : (c = '.' ∨ c = '!') ∨ c = '?' := by
    simpa [punctChar] using h
  rcases hc with (rfl | rfl) | rfl <;> decide

/-- The captured milk phrase is already trimmed. -/
theorem trimJs_milk {q : Str} (hq : ∀ c ∈ q, punctChar c = true) :
    trimJs (w "buy milk" ++ q) = w "buy milk" ++ q := by
  unfold trimJs
  rw [show (w "buy milk" ++ q).dropWhile wsChar = w "buy milk" ++ q from rfl,
    List.reverse_append]
  have hqr : q.reverse.dropWhile wsChar = q.reverse :=
    dropWhile_eq_self_of_all_false
      (fun c hc => punct_not_ws (hq c (List.mem_reverse.1 hc)))
  rw [List.dropWhile_append]
  match q with
  | [] =>
    rw [show (([] : Str).reverse.dropWhile wsChar).isEmpty = true from rfl]
    rw [if_pos rfl]
    rw [show ((w "buy milk").reverse.dropWhile wsChar) = (w "buy milk").reverse
      from by decide]
    simp
  | c :: q2 =>
    rw [hqr]
    rw [if_neg (by
      intro hemp
      have := List.isEmpty_iff.1 hemp
      have h2 := congrArg List.length this
      simp at h2)]
    rw [List.reverse_append, List.reverse_reverse, List.reverse_reverse]

/-- Stripping trailing punctuation from the captured milk phrase
yields exactly the task phrase. -/
theorem strip_milk {q : Str} (hq : ∀ c ∈ q, punctChar c = true) :
    stripTrailingPunct (w "buy milk" ++ q) = w "buy milk" := by
  unfold stripTrailingPunct
  rw [List.reverse_append, List.dropWhile_append]
  have hqr : q.reverse.dropWhile punctChar = [] := by
    rw [List.dropWhile_eq_nil_iff]
    exact fun x hx => hq x (List.mem_reverse.1 hx)
  rw [hqr]
  rw [show ([] : Str).isEmpty = true from rfl, if_pos rfl]
  rw [show ((w "buy milk").reverse.dropWhile punctChar) = (w "buy milk").reverse
    from by decide]
  rw [List.reverse_reverse]

/-- The clean-up accepts the milk capture and returns the task
phrase. -/
theorem cleanCheck_milk {q : Str} (hq : ∀ c ∈ q, punctChar c = true) :
    cleanCheck (w "buy milk" ++ q) = some (w "buy milk") := by
  unfold cleanCheck
  rw [trimJs_milk hq, strip_milk hq]
  rw [if_pos (by decide)]

/-- Both extractors on the milk phrase followed by punctuation: the
first pattern fails, the second captures, the clean-up strips. -/
theorem extractTask_milk_suffix {q : Str} (hq : ∀ c ∈ q, punctChar c = true) :
    SyncScript.extractTask (w "remember to buy milk" ++ q) = some (w "buy milk")
    ∧ SimpleScript.extractTask (w "remember to buy milk" ++ q)
        = some (w "buy milk") := by
  have hP1 : findPat1 (w "remember to buy milk" ++ q) = none :=
    findPat1_none_of_no_a (no_a_in_milk hq)
  have hP2 : findPat2 (w "remember to buy milk" ++ q)
      = some (w "buy milk" ++ q) := by
    rw [findPat2_milk q, takeWhile_dot_punct hq]
  constructor
  · unfold SyncScript.extractTask
    rw [runPatterns, hP1, runPatterns, hP2]
    dsimp only
    rw [cleanCheck_milk hq]
  · unfold SimpleScript.extractTask
    rw [runPatterns, hP1, runPatterns, hP2]
    dsimp only
    rw [cleanCheck_milk hq]

/-- Dropping at most the first list leaves the second intact. -/
theorem drop_append_le {α : Type} : ∀ (l1 l2 : List α) (n : Nat),
    n ≤ l1.length → (l1 ++ l2).drop n = l1.drop n ++ l2 := by
  intro l1
  induction l1 with
  | nil =>
    intro l2 n h
    have : n = 0 := by simpa using h
    subst this
    simp
  | cons a as ih =>
    intro l2 n h
    match n with
    | 0 => simp
    | n + 1 =>
      rw [List.cons_append, List.drop_succ_cons, List.drop_succ_cons]
      exact ih l2 n (by simpa using h)

/-- Eviction never touches the dispatch log. -/
theorem countDisp_evict (st : SyncState) (m : String) :
    countDisp (SyncScript.evict st) m = countDisp st m := by
  unfold SyncScript.evict
  split <;> rfl

/-!
## Claims
-/

/-- C1: the claim states that a phrase with no urgency and no deferral
markers is classified `medium` by both script variants.  The
local-file variant does behave so, but in `openclaw-todo-sync.js` the
`highPriorityPatterns` array contains the regex `/^/`, which matches
every string, so that classifier returns `high` on every input —
including the marker-free phrase `"buy milk"`. -/
theorem claim_C1_default_medium_bug :
    (∀ t : Str, SyncScript.detectPriority t = Priority.high)
    ∧ SyncScript.detectPriority (w "buy milk") = Priority.high
    ∧ SimpleScript.detectPriority (w "buy milk") = Priority.medium :=
  ⟨detectPriority_sync_high, detectPriority_sync_high _, by decide⟩

/-- C2 (counterexample): dispatch-at-most-once fails across eviction.
In the concrete run `evictionRun`, the message id `"m1"` is fed,
500 fresh ids follow (the cache reaches 501 entries and the script
drops the 100 oldest, `"m1"` among them), and feeding `"m1"` again
dispatches it a second time: two dispatch calls for one identifier. -/
theorem claim_C2_counterexample :
    countDisp (SyncScript.runSessions (fun _ => true) evictionRun initState) "m1" = 2
    ∧ ¬ countDisp (SyncScript.runSessions (fun _ => true) evictionRun initState)
        "m1" ≤ 1 := by
  have h : countDisp (SyncScript.runSessions (fun _ => true) evictionRun initState)
      "m1" = 2 := by
    rw [evictionRun_eval]
    simp [countDisp]
  exact ⟨h, by omega⟩

/-- C2 (amended): at most one dispatch per identifier holds
unconditionally for the local-file variant (whose cache never evicts),
and for the remote-session variant along any run during which the
eviction block does not fire; moreover in both variants the cache mark
is set immediately after evaluation and the whole step is independent
of the dispatch outcome. -/
theorem claim_C2_amended :
    (∀ (ok : String → Bool) (polls : List (Option (List SimpleScript.FileEntry)))
        (m : String),
        countDisp (SimpleScript.runScans ok polls initState) m ≤ 1)
    ∧ (∀ (ok : String → Bool) (batches : List (String × List Message)) (m : String),
        SyncScript.noEvictRun ok batches initState = true →
        countDisp (SyncScript.runSessions ok batches initState) m ≤ 1)
    ∧ (∀ (ok : String → Bool) (st : SyncState) (mid : String) (c : Str),
        mid ≠ "" → mid ∈ (SyncScript.stepMessage ok st ⟨some mid, c⟩).cache)
    ∧ (∀ (ok ok2 : String → Bool) (st : SyncState) (m : Message),
        SyncScript.stepMessage ok st m = SyncScript.stepMessage ok2 st m)
    ∧ (∀ (ok : String → Bool) (st : SyncState) (d : SimpleScript.LineRecord)
        (mid : String),
        SimpleScript.lineId d = some mid → mid ≠ "" →
        mid ∈ (SimpleScript.stepLine ok st (some d)).cache)
    ∧ (∀ (ok ok2 : String → Bool) (st : SyncState)
        (l : Option SimpleScript.LineRecord),
        SimpleScript.stepLine ok st l = SimpleScript.stepLine ok2 st l) := by
  have hinit : ∀ m : String, DispInv initState m :=
    fun m => ⟨by simp [countDisp, initState], fun _ => by simp [countDisp, initState]⟩
  refine ⟨?_, ?_, ?_, ?_, ?_, ?_⟩
  · exact fun ok polls m => (runScans_inv ok polls initState m (hinit m)).1
  · exact fun ok batches m hne =>
      (runSessions_inv ok batches initState m (hinit m) hne).1
  · intro ok st mid c h1
    by_cases h2 : mid ∈ st.cache
    · rw [stepMessage_cached ok st mid c h2]
      exact h2
    · cases h3 : SyncScript.extractTask c with
      | none =>
        rw [stepMessage_fresh_none ok st mid c h1 h2 h3]
        exact List.mem_append_right _ (by simp)
      | some task =>
        rw [stepMessage_fresh_some ok st mid c task h1 h2 h3]
        exact List.mem_append_right _ (by simp)
  · intro ok ok2 st m
    obtain ⟨mid, c⟩ := m
    cases mid <;> rfl
  · intro ok st d mid hid h1
    by_cases h2 : mid ∈ st.cache
    · rw [stepLine_skip ok st d mid hid (Or.inr h2)]
      exact h2
    · cases h3 : SimpleScript.extractTask (SimpleScript.lineText d) with
      | none =>
        rw [stepLine_fresh_none ok st d mid hid h1 h2 h3]
        exact List.mem_append_right _ (by simp)
      | some task =>
        rw [stepLine_fresh_some ok st d mid task hid h1 h2 h3]
        exact List.mem_append_right _ (by simp)
  · intro ok ok2 st l
    match l with
    | none => rfl
    | some d =>
      unfold SimpleScript.stepLine
      cases SimpleScript.lineId d <;> rfl

/-- C2 (amended, witness): the amended statement applied to a concrete
two-poll run of the same message, a concrete fresh step, and a
concrete line step. -/
theorem claim_C2_amended_witness :
    countDisp (SyncScript.runSessions (fun _ => true)
        [(sessKey, [mMsg]), (sessKey, [mMsg])] initState) "m1" ≤ 1
    ∧ ("m1" : String) ∈ (SyncScript.stepMessage (fun _ => false) initState
        ⟨some "m1", w "x"⟩).cache
    ∧ ("m7" : String) ∈ (SimpleScript.stepLine (fun _ => false) initState
        (some ⟨some (w "x"), none, some "m7", none⟩)).cache := by
  refine ⟨claim_C2_amended.2.1 (fun _ => true)
      [(sessKey, [mMsg]), (sessKey, [mMsg])] "m1" (by decide),
    claim_C2_amended.2.2.1 (fun _ => false) initState "m1" (w "x") (by decide),
    claim_C2_amended.2.2.2.2.1 (fun _ => false) initState
      ⟨some (w "x"), none, some "m7", none⟩ "m7" (by decide) (by decide)⟩

/-- C3 (counterexample): boundedness fails for the local-file variant.
Processing one transcript of 501 fresh lines leaves all 501 ids in
`processedFiles` — more than the only configured cap in the repository
(the remote-session scriptʼs `50 * 10`) — with the oldest id still
present and the insertion order intact: this cache has no cap and no
eviction. -/
theorem claim_C3_counterexample :
    (SimpleScript.processTranscript (fun _ => true) "/sessions/sess.jsonl"
        (some (floodLines 0 501)) initState).cache = fids 0 501
    ∧ (SimpleScript.processTranscript (fun _ => true) "/sessions/sess.jsonl"
        (some (floodLines 0 501)) initState).cache.length = 501
    ∧ 500 < (SimpleScript.processTranscript (fun _ => true) "/sessions/sess.jsonl"
        (some (floodLines 0 501)) initState).cache.length
    ∧ fid 0 ∈ (SimpleScript.processTranscript (fun _ => true) "/sessions/sess.jsonl"
        (some (floodLines 0 501)) initState).cache := by
  rw [bigTranscript_eval]
  refine ⟨rfl, length_fids 0 501, by rw [length_fids]; omega, ?_⟩
  · show fid 0 ∈ fid 0 :: fids 1 500
    exact List.mem_cons_self _ _

/-- C3 (amended): the remote-session cache is the bounded one — when
it exceeds the cap the 100 oldest-inserted ids are dropped (FIFO), a
round adds at most five entries, and entries added in the round that
overflowed the cap survive the eviction; the local-file cache, by
contrast, only ever grows (the previous cache is a prefix of the later
one). -/
theorem claim_C3_amended :
    (∀ st : SyncState, SyncScript.cacheCap < st.cache.length →
        (SyncScript.evict st).cache = st.cache.drop 100)
    ∧ (∀ (ok : String → Bool) (msgs : List Message) (st : SyncState),
        ∃ newIds,
          ((msgs.drop (msgs.length - 5)).foldl (SyncScript.stepMessage ok) st).cache
            = st.cache ++ newIds ∧ newIds.length ≤ 5)
    ∧ (∀ (st : SyncState) (news : List String) (i : String),
        i ∈ news → news.length ≤ 5 →
        SyncScript.cacheCap < (st.cache ++ news).length →
        i ∈ (SyncScript.evict ⟨st.cache ++ news, st.dispatches⟩).cache)
    ∧ (∀ (ok : String → Bool) (lines : List (Option SimpleScript.LineRecord))
        (st : SyncState),
        st.cache <+: (lines.foldl (SimpleScript.stepLine ok) st).cache) := by
  refine ⟨?_, ?_, ?_, ?_⟩
  · intro st h
    unfold SyncScript.evict
    rw [if_pos h]
  · intro ok msgs st
    obtain ⟨newIds, _, hc, _, _, _, hlen⟩ :=
      foldl_stepMessage_shape ok (msgs.drop (msgs.length - 5)) st
    refine ⟨newIds, hc, ?_⟩
    have : (msgs.drop (msgs.length - 5)).length ≤ 5 := by
      rw [List.length_drop]
      omega
    omega
  · intro st news i hi hlen hcap
    unfold SyncScript.evict
    rw [if_pos (by simpa using hcap)]
    have hcache : 100 ≤ st.cache.length := by
      rw [List.length_append] at hcap
      have := SyncScript.cacheCap
      simp only [SyncScript.cacheCap] at hcap
      omega
    show i ∈ (st.cache ++ news).drop 100
    rw [drop_append_le st.cache news 100 hcache]
    exact List.mem_append_right _ hi
  · intro ok lines st
    obtain ⟨newIds, _, hc, _⟩ := foldl_stepLine_shape ok lines st
    rw [hc]
    exact List.prefix_append _ _

/-- C3 (amended, witness): the amended statement applied to a concrete
oversized cache, a concrete one-message round, a concrete overflow
with a surviving fresh id, and a concrete line fold. -/
theorem claim_C3_amended_witness :
    (SyncScript.evict ⟨fids 0 501, []⟩).cache = (fids 0 501).drop 100
    ∧ (∃ newIds,
        ((([mMsg] : List Message).drop (([mMsg] : List Message).length - 5)).foldl
          (SyncScript.stepMessage (fun _ => true)) initState).cache
          = initState.cache ++ newIds ∧ newIds.length ≤ 5)
    ∧ ("m1" : String) ∈ (SyncScript.evict ⟨(fids 0 500 : List String) ++ ["m1"],
        ([] : List DispatchRec)⟩).cache
    ∧ initState.cache <+:
        (([] : List (Option SimpleScript.LineRecord)).foldl
          (SimpleScript.stepLine (fun _ => true)) initState).cache := by
  refine ⟨claim_C3_amended.1 ⟨fids 0 501, []⟩ (by
      simp only [SyncScript.cacheCap, length_fids]
      omega),
    claim_C3_amended.2.1 (fun _ => true) [mMsg] initState, ?_, ?_⟩
  · have h := claim_C3_amended.2.2.1 ⟨fids 0 500, []⟩ ["m1"] "m1"
      (by simp) (by simp)
      (by simp only [SyncScript.cacheCap, List.length_append, length_fids,
            List.length_cons, List.length_nil]
          omega)
    exact h
  · exact claim_C3_amended.2.2.2 (fun _ => true) [] initState

/-- C4: the claim states that after `processSession` the last-seen
identifier recorded under the session key equals the last messageʼs id
and that an unchanged session is then detected.  In the code nothing
is ever stored under the session key: after processing the session the
map holds only the message id, `get(sessionKey)` stays undefined, and
the unchanged-session test evaluates to false on the very next
identical poll (the dead early exit is documented by the code comment
`Skip if we have already processed this message`); re-dispatching is
prevented only by the per-message membership test. -/
theorem claim_C4_no_session_cursor (ok : String → Bool) :
    (SyncScript.processSession ok sessKey [mMsg] initState).cache = ["m1"]
    ∧ sessKey ∉ (SyncScript.processSession ok sessKey [mMsg] initState).cache
    ∧ SyncScript.unchangedCheck
        (SyncScript.processSession ok sessKey [mMsg] initState).cache
        sessKey (some "m1") = false
    ∧ SyncScript.processSession ok sessKey [mMsg]
        (SyncScript.processSession ok sessKey [mMsg] initState)
      = SyncScript.processSession ok sessKey [mMsg] initState := by
  rw [processSession_m1_first ok]
  refine ⟨rfl, by decide, by decide, ?_⟩
  have hstep : SyncScript.stepMessage ok
      ⟨["m1"], [⟨w "buy milk", SyncScript.detectPriority (w "buy milk"), "m1"⟩]⟩
      mMsg = ⟨["m1"], [⟨w "buy milk", SyncScript.detectPriority (w "buy milk"), "m1"⟩]⟩ := by
    rw [show mMsg = (⟨some "m1", w "remember to buy milk"⟩ : Message) from rfl]
    exact stepMessage_cached ok _ "m1" _ (by simp)
  unfold SyncScript.processSession
  rw [show ([mMsg] : List Message).getLast? = some mMsg from rfl]
  simp only [show SyncScript.unchangedCheck ["m1"] sessKey mMsg.messageId = false
      from by decide, Bool.false_eq_true, if_false,
    show ([mMsg] : List Message).length - 5 = 0 from rfl, List.drop_zero]
  rw [show List.foldl (SyncScript.stepMessage ok)
      (⟨["m1"], [⟨w "buy milk", SyncScript.detectPriority (w "buy milk"), "m1"⟩]⟩ : SyncState)
      [mMsg]
      = SyncScript.stepMessage ok
        ⟨["m1"], [⟨w "buy milk", SyncScript.detectPriority (w "buy milk"), "m1"⟩]⟩
        mMsg from rfl, hstep]
  unfold SyncScript.evict
  rw [if_neg (by simp [SyncScript.cacheCap])]

/-- C5: any phrase containing `urgent` is classified `high` by both
variants, even when a deferral marker such as `eventually` is also
present — the urgency patterns are tested first (and, in the
remote-session variant, the `/^/` pattern makes every phrase `high`
anyway). -/
theorem claim_C5_urgent_high (t : Str) (h : (w "urgent") <:+: t) :
    SyncScript.detectPriority t = Priority.high
    ∧ SimpleScript.detectPriority t = Priority.high := by
  refine ⟨detectPriority_sync_high t, ?_⟩
  have h2 : (w "urgent") <:+: t.map Char.toLower := by
    have h3 := List.IsInfix.map Char.toLower h
    rwa [show (w "urgent").map Char.toLower = w "urgent" from by decide] at h3
  have hocc : anyOccurs SimpleScript.urgencyWords (t.map Char.toLower) = true := by
    unfold anyOccurs
    rw [List.any_eq_true]
    exact ⟨w "urgent", by simp [SimpleScript.urgencyWords], decide_eq_true h2⟩
  unfold SimpleScript.detectPriority
  dsimp only
  rw [hocc]
  rfl

/-- C5 (witness): the tie-break phrase containing both `urgent` and
`eventually` is classified `high` by both variants. -/
theorem claim_C5_urgent_high_witness :
    SyncScript.detectPriority (w "urgent: do this eventually") = Priority.high
    ∧ SimpleScript.detectPriority (w "urgent: do this eventually") = Priority.high :=
  claim_C5_urgent_high (w "urgent: do this eventually") (by decide)

/-- C6 (counterexample): the claim states that every text containing
`remember to buy milk` extracts to exactly `buy milk`; but the capture
group takes the whole rest of the line, so
`remember to buy milk today` extracts to `buy milk today` in both
variants. -/
theorem claim_C6_counterexample :
    (w "remember to buy milk") <:+: (w "remember to buy milk today")
    ∧ SyncScript.extractTask (w "remember to buy milk today")
        = some (w "buy milk today")
    ∧ SimpleScript.extractTask (w "remember to buy milk today")
        = some (w "buy milk today")
    ∧ (some (w "buy milk today") : Option Str) ≠ some (w "buy milk") := by
  refine ⟨by decide, by decide, by decide, by decide⟩

/-- C6 (amended): when the text is `remember to buy milk` followed
only by sentence punctuation, both extractors return exactly
`buy milk` (trimmed, trailing punctuation stripped); with other
trailing words the extractors return the whole remainder of the line
instead. -/
theorem claim_C6_amended (q : Str) (hq : ∀ c ∈ q, punctChar c = true) :
    SyncScript.extractTask (w "remember to buy milk" ++ q) = some (w "buy milk")
    ∧ SimpleScript.extractTask (w "remember to buy milk" ++ q)
        = some (w "buy milk") :=
  extractTask_milk_suffix hq

/-- C6 (amended, witness): the amended statement at the trailing
suffix `!!`. -/
theorem claim_C6_amended_witness :
    SyncScript.extractTask (w "remember to buy milk" ++ w "!!")
      = some (w "buy milk")
    ∧ SimpleScript.extractTask (w "remember to buy milk" ++ w "!!")
      = some (w "buy milk") :=
  claim_C6_amended (w "!!") (by decide)

/-- Unfolding one directory entry of a `scanSessions` poll. -/
theorem scanSessions_cons (ok : String → Bool) (f : SimpleScript.FileEntry)
    (fs : List SimpleScript.FileEntry) (st : SyncState) :
    SimpleScript.scanSessions ok (some (f :: fs)) st
      = SimpleScript.scanSessions ok (some fs)
          (if SimpleScript.endsWithJsonl f.name = true
           then SimpleScript.processTranscript ok f.path f.read st else st) := rfl

/-- C7: local-file failure handling.  A line on which `JSON.parse`
throws is skipped and the remaining lines of the same file are
processed exactly as if the bad line were absent; an unreadable file
is skipped and the scan of the remaining files (and all cache entries
already made) is exactly that of the directory without it; a missing
directory makes the poll a no-op. -/
theorem claim_C7_error_skip :
    (∀ (ok : String → Bool) (st : SyncState)
        (pre post : List (Option SimpleScript.LineRecord)),
        (pre ++ none :: post).foldl (SimpleScript.stepLine ok) st
          = (pre ++ post).foldl (SimpleScript.stepLine ok) st)
    ∧ (∀ (ok : String → Bool) (fp : String) (st : SyncState),
        SimpleScript.processTranscript ok fp none st = st)
    ∧ (∀ (ok : String → Bool) (st : SyncState),
        SimpleScript.scanSessions ok none st = st)
    ∧ (∀ (ok : String → Bool) (st : SyncState)
        (fs1 fs2 : List SimpleScript.FileEntry) (nm p : String),
        SimpleScript.scanSessions ok (some (fs1 ++ ⟨nm, p, none⟩ :: fs2)) st
          = SimpleScript.scanSessions ok (some (fs1 ++ fs2)) st) := by
  have hnone : ∀ (ok : String → Bool) (fp : String) (st : SyncState),
      SimpleScript.processTranscript ok fp none st = st := by
    intro ok fp st
    unfold SimpleScript.processTranscript
    split <;> rfl
  refine ⟨?_, hnone, fun _ _ => rfl, ?_⟩
  · intro ok st pre post
    rw [List.foldl_append, List.foldl_append, List.foldl_cons, stepLine_badJson]
  · intro ok st fs1 fs2 nm p
    induction fs1 generalizing st with
    | nil =>
      rw [List.nil_append, List.nil_append, scanSessions_cons]
      have : (if (SimpleScript.endsWithJsonl
            (⟨nm, p, none⟩ : SimpleScript.FileEntry).name = true)
          then SimpleScript.processTranscript ok
            (⟨nm, p, none⟩ : SimpleScript.FileEntry).path
            (⟨nm, p, none⟩ : SimpleScript.FileEntry).read st
          else st) = st := by
        dsimp only
        split
        · exact hnone ok p st
        · rfl
      rw [this]
    | cons a as ih =>
      rw [List.cons_append, List.cons_append, scanSessions_cons, scanSessions_cons]
      exact ih _

/-- C8: one remote-session poll evaluates only `slice(-5)` of the
fetched history.  An unseen identifier carried only by a message
earlier than the last five is neither marked seen nor dispatched by
the poll. -/
theorem claim_C8_last_five (ok : String → Bool) (key : String)
    (msgs : List Message) (st : SyncState) (i : String)
    (hearly : ∃ m ∈ msgs.take (msgs.length - 5), m.messageId = some i)
    (hlate : ∀ m ∈ msgs.drop (msgs.length - 5), m.messageId ≠ some i)
    (hst : i ∉ st.cache) :
    i ∉ (SyncScript.processSession ok key msgs st).cache
    ∧ countDisp (SyncScript.processSession ok key msgs st) i = countDisp st i := by
  cases hL : msgs.getLast? with
  | none =>
    simp only [SyncScript.processSession, hL]
    exact ⟨hst, trivial⟩
  | some lastMessage =>
    simp only [SyncScript.processSession, hL]
    by_cases hu : SyncScript.unchangedCheck st.cache key lastMessage.messageId = true
    · rw [if_pos hu]
      exact ⟨hst, rfl⟩
    · rw [if_neg hu]
      obtain ⟨newIds, newDisp, hc, hd, hpi, hpd, _⟩ :=
        foldl_stepMessage_shape ok (msgs.drop (msgs.length - 5)) st
      have hiNew : i ∉ newIds := by
        intro hi
        obtain ⟨m, hm, hmid⟩ := hpi i hi
        exact hlate m hm hmid
      constructor
      · intro hmem
        have hmem2 : i ∈ st.cache ++ newIds := by
          rw [← hc]
          unfold SyncScript.evict at hmem
          split at hmem
          · exact List.mem_of_mem_drop hmem
          · exact hmem
        rcases List.mem_append.1 hmem2 with h2 | h2
        · exact hst h2
        · exact hiNew h2
      · rw [countDisp_evict]
        unfold countDisp
        rw [hd, List.filter_append]
        have hnil : newDisp.filter (fun d => d.messageId = i) = [] := by
          rw [List.filter_eq_nil_iff]
          intro d hdm
          obtain ⟨m, hm, hmid⟩ := hpd d hdm
          simp only [decide_eq_true_eq]
          intro hdi
          exact hlate m hm (by rw [hmid, hdi])
        rw [hnil, List.append_nil]

/-- C8 (witness): in a six-message history whose first message carries
a fresh extractable task, that first message is outside the last five
and is neither cached nor dispatched. -/
theorem claim_C8_last_five_witness :
    ("early1" : String) ∉ (SyncScript.processSession (fun _ => true) sessKey
      [⟨some "early1", w "remember to buy milk"⟩, fMsg 1, fMsg 2, fMsg 3,
       fMsg 4, fMsg 5] initState).cache
    ∧ countDisp (SyncScript.processSession (fun _ => true) sessKey
      [⟨some "early1", w "remember to buy milk"⟩, fMsg 1, fMsg 2, fMsg 3,
       fMsg 4, fMsg 5] initState) "early1" = countDisp initState "early1" :=
  claim_C8_last_five (fun _ => true) sessKey
    [⟨some "early1", w "remember to buy milk"⟩, fMsg 1, fMsg 2, fMsg 3,
     fMsg 4, fMsg 5] initState "early1"
    (by decide) (by decide) (by decide)

/-- C9: a message whose identifier is missing or falsy (the empty
string, including via the `messageId || id` fallback of the local-file
variant) is skipped entirely: the state — cache and dispatch log —
is unchanged, so it is never extracted, dispatched, or marked seen. -/
theorem claim_C9_falsy_id_skip :
    (∀ (ok : String → Bool) (st : SyncState) (c : Str),
        SyncScript.stepMessage ok st ⟨none, c⟩ = st)
    ∧ (∀ (ok : String → Bool) (st : SyncState) (c : Str),
        SyncScript.stepMessage ok st ⟨some "", c⟩ = st)
    ∧ (∀ (ok : String → Bool) (st : SyncState) (d : SimpleScript.LineRecord),
        SimpleScript.lineId d = none →
        SimpleScript.stepLine ok st (some d) = st)
    ∧ (∀ (ok : String → Bool) (st : SyncState) (d : SimpleScript.LineRecord),
        SimpleScript.lineId d = some "" →
        SimpleScript.stepLine ok st (some d) = st) := by
  refine ⟨fun ok st c => stepMessage_noId ok st c,
    fun ok st c => by simp [SyncScript.stepMessage],
    fun ok st d h => stepLine_noId ok st d h,
    fun ok st d h => stepLine_skip ok st d "" h (Or.inl rfl)⟩

/-- C9 (witness): concrete messages with a missing id and with an
empty-string id, each carrying an extractable phrase, are skipped. -/
theorem claim_C9_falsy_id_skip_witness :
    SyncScript.stepMessage (fun _ => true) initState
      ⟨none, w "remember to buy milk"⟩ = initState
    ∧ SyncScript.stepMessage (fun _ => true) initState
      ⟨some "", w "remember to buy milk"⟩ = initState
    ∧ SimpleScript.stepLine (fun _ => true) initState
      (some ⟨some (w "remember to buy milk"), none, none, none⟩) = initState
    ∧ SimpleScript.stepLine (fun _ => true) initState
      (some ⟨some (w "remember to buy milk"), none, some "", some ""⟩) = initState :=
  ⟨claim_C9_falsy_id_skip.1 (fun _ => true) initState (w "remember to buy milk"),
   claim_C9_falsy_id_skip.2.1 (fun _ => true) initState (w "remember to buy milk"),
   claim_C9_falsy_id_skip.2.2.1 (fun _ => true) initState
     ⟨some (w "remember to buy milk"), none, none, none⟩ rfl,
   claim_C9_falsy_id_skip.2.2.2 (fun _ => true) initState
     ⟨some (w "remember to buy milk"), none, some "", some ""⟩ rfl⟩

/-- C10: `POST /todos` (all three handler variants, at the `/todos`
path) creates a todo exactly when the request body carries a text that
is non-empty after trimming: then the response is 201 with
`success: true`, the created todo has the generated id, the trimmed
text, and `completed = false`, and it is prepended to the stored list;
otherwise the response is 400 with `success: false` and the stored
list is unchanged. -/
theorem claim_C10_post_validation :
    (∀ (freshId : String) (now : Nat) (todos : List Todo) (b : PostBody)
        (t : Str), b.text = some t → trimJs t ≠ [] →
        ((ApiTodosJs.POST freshId now todos (some b)).2.status = 201
          ∧ (ApiTodosJs.POST freshId now todos (some b)).2.success = true
          ∧ ∃ td, (ApiTodosJs.POST freshId now todos (some b)).2.data = some td
              ∧ td.id = freshId ∧ td.text = trimJs t ∧ td.completed = false
              ∧ (ApiTodosJs.POST freshId now todos (some b)).1 = td :: todos)
        ∧ ((ApiIndexJs.POST freshId now "/todos" todos (some b)).2.status = 201
          ∧ (ApiIndexJs.POST freshId now "/todos" todos (some b)).2.success = true
          ∧ ∃ td, (ApiIndexJs.POST freshId now "/todos" todos (some b)).2.data
                = some td
              ∧ td.id = freshId ∧ td.text = trimJs t ∧ td.completed = false
              ∧ (ApiIndexJs.POST freshId now "/todos" todos (some b)).1
                = td :: todos)
        ∧ ((ApiGistJs.POST freshId now "/todos" todos (some b)).2.status = 201
          ∧ (ApiGistJs.POST freshId now "/todos" todos (some b)).2.success = true
          ∧ ∃ td, (ApiGistJs.POST freshId now "/todos" todos (some b)).2.data
                = some td
              ∧ td.id = freshId ∧ td.text = trimJs t ∧ td.completed = false
              ∧ (ApiGistJs.POST freshId now "/todos" todos (some b)).1
                = td :: todos))
    ∧ (∀ (freshId : String) (now : Nat) (todos : List Todo)
        (body : Option PostBody),
        (∀ b t, body = some b → b.text = some t → trimJs t = []) →
        ApiTodosJs.POST freshId now todos body = (todos, ⟨400, false, none⟩)
        ∧ ApiIndexJs.POST freshId now "/todos" todos body
            = (todos, ⟨400, false, none⟩)
        ∧ ApiGistJs.POST freshId now "/todos" todos body
            = (todos, ⟨400, false, none⟩)) := by
  have hpath : ¬ (("/todos" : String) ≠ "/todos" ∧ ("/todos" : String) ≠ "/") :=
    fun h => h.1 rfl
  constructor
  · intro freshId now todos b t htext hne
    have hcond : ¬ (t = [] ∨ trimJs t = []) := by
      rintro (rfl | h2)
      · exact hne rfl
      · exact hne h2
    refine ⟨?_, ?_, ?_⟩
    · unfold ApiTodosJs.POST
      dsimp only
      rw [htext]
      dsimp only
      rw [if_neg hcond]
      exact ⟨rfl, rfl, _, rfl, rfl, rfl, rfl, rfl⟩
    · unfold ApiIndexJs.POST
      rw [if_neg hpath]
      dsimp only
      rw [htext]
      dsimp only
      rw [if_neg hcond]
      exact ⟨rfl, rfl, _, rfl, rfl, rfl, rfl, rfl⟩
    · unfold ApiGistJs.POST
      rw [if_neg hpath]
      dsimp only
      rw [htext]
      dsimp only
      rw [if_neg hcond]
      exact ⟨rfl, rfl, _, rfl, rfl, rfl, rfl, rfl⟩
  · intro freshId now todos body hbad
    match body with
    | none =>
      refine ⟨rfl, ?_, ?_⟩
      · unfold ApiIndexJs.POST
        rw [if_neg hpath]
      · unfold ApiGistJs.POST
        rw [if_neg hpath]
    | some b =>
      cases htext : b.text with
      | none =>
        refine ⟨?_, ?_, ?_⟩
        · unfold ApiTodosJs.POST
          dsimp only
          rw [htext]
        · unfold ApiIndexJs.POST
          rw [if_neg hpath]
          dsimp only
          rw [htext]
        · unfold ApiGistJs.POST
          rw [if_neg hpath]
          dsimp only
          rw [htext]
      | some t =>
        have htrim : trimJs t = [] := hbad b t rfl htext
        have hcond : t = [] ∨ trimJs t = [] := Or.inr htrim
        refine ⟨?_, ?_, ?_⟩
        · unfold ApiTodosJs.POST
          dsimp only
          rw [htext]
          dsimp only
          rw [if_pos hcond]
        · unfold ApiIndexJs.POST
          rw [if_neg hpath]
          dsimp only
          rw [htext]
          dsimp only
          rw [if_pos hcond]
        · unfold ApiGistJs.POST
          rw [if_neg hpath]
          dsimp only
          rw [htext]
          dsimp only
          rw [if_pos hcond]

/-- C10 (witness): a body whose text trims to `milk` is created with
status 201 by all three handlers; a whitespace-only body is rejected
with status 400 by all three, leaving the list unchanged. -/
theorem claim_C10_post_validation_witness :
    ((ApiTodosJs.POST "id1" 7 [] (some ⟨some (w "  milk "), none, none, none,
        none⟩)).2.status = 201
      ∧ (ApiTodosJs.POST "id1" 7 [] (some ⟨some (w "  milk "), none, none, none,
        none⟩)).2.success = true
      ∧ ∃ td, (ApiTodosJs.POST "id1" 7 [] (some ⟨some (w "  milk "), none, none,
            none, none⟩)).2.data = some td
          ∧ td.id = "id1" ∧ td.text = trimJs (w "  milk ") ∧ td.completed = false
          ∧ (ApiTodosJs.POST "id1" 7 [] (some ⟨some (w "  milk "), none, none,
              none, none⟩)).1 = td :: [])
    ∧ ApiTodosJs.POST "id1" 7 [] (some ⟨some (w "   "), none, none, none, none⟩)
        = ([], ⟨400, false, none⟩)
    ∧ ApiIndexJs.POST "id1" 7 "/todos" [] (some ⟨some (w "   "), none, none,
        none, none⟩) = ([], ⟨400, false, none⟩)
    ∧ ApiGistJs.POST "id1" 7 "/todos" [] (some ⟨some (w "   "), none, none,
        none, none⟩) = ([], ⟨400, false, none⟩) := by
  have hbad : ∀ (b : PostBody) (t : Str),
      (some (⟨some (w "   "), none, none, none, none⟩ : PostBody)) = some b →
      b.text = some t → trimJs t = [] := by
    intro b t hb ht
    cases Option.some.inj hb
    have : some (w "   ") = some t := ht
    cases Option.some.inj this
    decide
  have hneg := claim_C10_post_validation.2 "id1" 7 []
    (some ⟨some (w "   "), none, none, none, none⟩) hbad
  exact ⟨(claim_C10_post_validation.1 "id1" 7 []
      ⟨some (w "  milk "), none, none, none, none⟩ (w "  milk ") rfl
      (by decide)).1,
    hneg.1, hneg.2.1, hneg.2.2⟩
